import Mathlib

/-!
Shallow embedding of the Inventory-Agent core (command parser, inventory
service, route dispatch) for checking the specification's claims.

Sources embedded:
- src/backend/command_parser.py  (CommandParser.parse, _try_structured_parse,
  _clean_item_name, _flexible_parse; module-level STOP_WORDS)
- src/backend/inventory_service.py (get_item, add_item, remove_item,
  update_item, get_all_items)
- src/backend/routes.py (get_inventory status derivation, add_inventory
  quantity guard, execute_inventory_action, handle_voice_command text branch)
- src/shared/constants.py (MESSAGES templates)
- src/shared/models.py (ParsedCommand)

Python strings are modelled as `String`/`List Char`; Python ints as `Int`
(parser quantities, which arise from digit captures, as `Nat`); the float
confidences 1.0 and 0.7 as the rationals 1 and 7/10 (they are only carried,
never computed with). The five `re.match` patterns of _try_structured_parse
are embedded via a small regex interpreter (`Re`, `reMatches`) whose result
list is ordered by Python's backtracking priority (alternatives left to
right, greedy iteration longest first, lazy iteration shortest first), so
that `reMatch` (the head of that list) is the match Python finds. The only
iterated subpatterns in the source regexes are single character classes
(\s+, \s*, \d+, [a-z\s]+?), which is what `Re` supports.
-/

/-- Python's `\s` class over ASCII (space, tab, newline, carriage return,
vertical tab, form feed), by code point. -/
def isSpaceChar (c : Char) : Bool :=
  c.toNat = 32 || c.toNat = 9 || c.toNat = 10 || c.toNat = 13 ||
  c.toNat = 11 || c.toNat = 12

/-- The character class `[a-z]` of the source patterns. -/
def isLowerAlpha (c : Char) : Bool :=
  97 ≤ c.toNat && c.toNat ≤ 122

/-- Python's `\d` (ASCII digits, the only digits the utterances carry). -/
def isDigitCh (c : Char) : Bool :=
  48 ≤ c.toNat && c.toNat ≤ 57

/-- The character class `[a-z\s]` of the item captures. -/
def isAzWs (c : Char) : Bool :=
  isLowerAlpha c || isSpaceChar c

/-- Python `str.strip()` on a char list: drop `\s` characters from both ends. -/
def pyStripL (l : List Char) : List Char :=
  ((l.dropWhile (fun c => isSpaceChar c)).reverse.dropWhile
    (fun c => isSpaceChar c)).reverse

/-- Python `str.strip()` on strings. -/
def pyStripS (s : String) : String :=
  ⟨pyStripL s.data⟩

/-- Python `str.lower()` (ASCII case folding; the Telugu and Devanagari
scripts have no case, and `Char.toLower` only folds ASCII letters). -/
def toLowerS (s : String) : String :=
  ⟨s.data.map Char.toLower⟩

/-- One left-to-right scan of Python `str.split()`: `acc` holds the
(reversed) word being read; a whitespace char closes the current word, a
non-whitespace char extends it. -/
def pySplitAux : List Char → List Char → List (List Char)
  | [], acc => if acc.isEmpty then [] else [acc.reverse]
  | c :: rest, acc =>
    if isSpaceChar c then
      if acc.isEmpty then pySplitAux rest []
      else acc.reverse :: pySplitAux rest []
    else pySplitAux rest (c :: acc)

/-- Python `str.split()` (split on whitespace runs, no empty words). -/
def pySplitL (l : List Char) : List (List Char) :=
  pySplitAux l []

/-- Python `str.split()` on strings. -/
def pySplitS (s : String) : List String :=
  (pySplitL s.data).map (fun l => String.mk l)

/-- Python `str.isdigit()` restricted to ASCII: nonempty and all digits. -/
def pyIsDigit (s : String) : Bool :=
  !s.data.isEmpty && s.data.all (fun c => isDigitCh c)

/-- Python `int()` of a digit string. -/
def natOfDigits (l : List Char) : Nat :=
  l.foldl (fun a c => a * 10 + (c.toNat - 48)) 0

/-- Match a literal char-list at the front of the input, returning the rest. -/
def dropPre : List Char → List Char → Option (List Char)
  | [], s => some s
  | _ :: _, [] => none
  | a :: as, b :: bs => if a = b then dropPre as bs else none

/-- Greedy `p*`: the suffixes reachable by consuming a run of `p`-chars,
longest consumption first (Python's backtracking order for `\s*`). -/
def starGSplits (p : Char → Bool) : List Char → List (List Char)
  | [] => [[]]
  | c :: l => if p c then starGSplits p l ++ [c :: l] else [c :: l]

/-- Greedy `p+` (`\s+`, `\d+`): at least one char, longest first. -/
def plusGSplits (p : Char → Bool) : List Char → List (List Char)
  | [] => []
  | c :: l => if p c then starGSplits p l else []

/-- Lazy `p+?` (`[a-z\s]+?`): at least one char, shortest first. -/
def plusLSplits (p : Char → Bool) : List Char → List (List Char)
  | [] => []
  | c :: l => if p c then l :: plusLSplits p l else []

/-- Regex syntax: the constructs appearing in the source's five patterns.
Iteration occurs only over single character classes in those patterns. -/
inductive Re where
  | eps
  | fail
  | lit (t : List Char)
  | alt2 (a b : Re)
  | seq2 (a b : Re)
  | opt (a : Re)
  | plusG (p : Char → Bool)
  | starG (p : Char → Bool)
  | plusL (p : Char → Bool)
  | grp (n : Nat) (a : Re)
  | endA

/-- Numbered capture groups. -/
abbrev Caps := List (Nat × List Char)

/-- All ways a regex can match a front segment of the input, as
(remaining input, captures), ordered by Python's backtracking priority:
the head of this list is the match `re.match` commits to. -/
def reMatches : Re → List Char → List (List Char × Caps)
  | .eps, s => [(s, [])]
  | .fail, _ => []
  | .lit t, s =>
    match dropPre t s with
    | some r => [(r, [])]
    | none => []
  | .alt2 a b, s => reMatches a s ++ reMatches b s
  | .seq2 a b, s =>
    (reMatches a s).flatMap (fun x =>
      (reMatches b x.1).map (fun y => (y.1, x.2 ++ y.2)))
  | .opt a, s => reMatches a s ++ [(s, [])]
  | .plusG p, s => (plusGSplits p s).map (fun r => (r, []))
  | .starG p, s => (starGSplits p s).map (fun r => (r, []))
  | .plusL p, s => (plusLSplits p s).map (fun r => (r, []))
  | .grp n a, s =>
    (reMatches a s).map (fun x => (x.1, (n, s.take (s.length - x.1.length)) :: x.2))
  | .endA, s =>
    match s with
    | [] => [([], [])]
    | _ :: _ => []

/-- The match `re.match` finds (highest-priority path), its captures. -/
def reMatch (r : Re) (s : List Char) : Option Caps :=
  ((reMatches r s).head?).map (fun x => x.2)

/-- First-or-fail of a priority list of matches. -/
def firstMatch (r : Re) (s : List Char) : Option (List Char × Caps) :=
  (reMatches r s).head?

/-- Group lookup (each group number occurs at most once in these patterns). -/
def capOf (c : Caps) (n : Nat) : List Char :=
  match c.find? (fun x => x.1 = n) with
  | some x => x.2
  | none => []

/-- Left-to-right alternation, as in `(?:x|y|z)`. -/
def altList (rs : List Re) : Re :=
  rs.foldr Re.alt2 Re.fail

/-- Sequencing of a pattern's elements. -/
def seqList (rs : List Re) : Re :=
  rs.foldr Re.seq2 Re.eps

/-- A string literal element. -/
def litS (s : String) : Re :=
  Re.lit s.data

/-- Alternation of string literals, left to right. -/
def altStrs (ss : List String) : Re :=
  altList (ss.map litS)

/-- The expansion of `(?:bags?|units?|pcs?|pieces?|kg|grams?)` in pattern 1,
alternatives in Python's trial order (greedy `s?` tries the `s` first). -/
def addUnits : List String :=
  ["bags", "bag", "units", "unit", "pcs", "pc", "pieces", "piece", "kg",
   "grams", "gram"]

/-- The expansion of `(?:bags?|units?|pcs?)` in pattern 2. -/
def removeUnits : List String :=
  ["bags", "bag", "units", "unit", "pcs", "pc"]

/-- The trailing `(?:\s+and|\s+also|$)` of patterns 1 and 2. -/
def tailAltRe : Re :=
  altList [seqList [.plusG isSpaceChar, litS "and"],
           seqList [.plusG isSpaceChar, litS "also"], .endA]

/-- Pattern 1 of _try_structured_parse:
`(?:add|put|insert)\s+(\d+)\s+(?:bags?|units?|pcs?|pieces?|kg|grams?)?\s*(?:of\s+)?([a-z\s]+?)(?:\s+and|\s+also|$)`. -/
def pat1 : Re :=
  seqList [altStrs ["add", "put", "insert"], .plusG isSpaceChar,
    .grp 1 (.plusG isDigitCh), .plusG isSpaceChar, .opt (altStrs addUnits),
    .starG isSpaceChar, .opt (seqList [litS "of", .plusG isSpaceChar]),
    .grp 2 (.plusL isAzWs), tailAltRe]

/-- Pattern 2:
`(?:remove|delete|take)\s+(\d+)\s+(?:bags?|units?|pcs?)?\s*(?:of\s+)?([a-z\s]+?)(?:\s+and|\s+also|$)`. -/
def pat2 : Re :=
  seqList [altStrs ["remove", "delete", "take"], .plusG isSpaceChar,
    .grp 1 (.plusG isDigitCh), .plusG isSpaceChar, .opt (altStrs removeUnits),
    .starG isSpaceChar, .opt (seqList [litS "of", .plusG isSpaceChar]),
    .grp 2 (.plusL isAzWs), tailAltRe]

/-- Pattern 3: `(?:update|change|set)\s+([a-z\s]+?)\s+(?:quantity\s+)?to\s+(\d+)`. -/
def pat3 : Re :=
  seqList [altStrs ["update", "change", "set"], .plusG isSpaceChar,
    .grp 1 (.plusL isAzWs), .plusG isSpaceChar,
    .opt (seqList [litS "quantity", .plusG isSpaceChar]), litS "to",
    .plusG isSpaceChar, .grp 2 (.plusG isDigitCh)]

/-- Pattern 4: `(?:check|how\s+many|quantity\s+of)\s+([a-z\s]+)`. -/
def pat4 : Re :=
  seqList [altList [litS "check", seqList [litS "how", .plusG isSpaceChar, litS "many"],
    seqList [litS "quantity", .plusG isSpaceChar, litS "of"]],
    .plusG isSpaceChar, .grp 1 (.plusG isAzWs)]

/-- Pattern 5: `(?:list|show|get)\s+(?:all|inventory)`. -/
def pat5 : Re :=
  seqList [altStrs ["list", "show", "get"], .plusG isSpaceChar,
    altStrs ["all", "inventory"]]

/-- The module-level STOP_WORDS set of command_parser.py. -/
def parserStopWords : List String :=
  ["and", "also", "the", "a", "an", "of", "in", "to", "for", "with",
   "please", "can", "you", "i", "want", "need", "successfully", "under",
   "forest", "packets", "packet"]

/-- The float literal 1.0 (tier-1 structured confidence), as an exact
rational in normal form. -/
def tierOneConfidence : Rat := ⟨1, 1, by decide, by decide⟩

/-- The float literal 0.7 (tier-2 flexible confidence), as an exact
rational in normal form. -/
def tierTwoConfidence : Rat := ⟨7, 10, by decide, by decide⟩

/-- shared/models.py ParsedCommand (confidence as an exact rational). -/
structure ParsedCommand where
  action : String
  item : String
  quantity : Nat
  confidence : Rat
  rawText : String
deriving DecidableEq, Repr

/-- CommandParser._clean_item_name: split, drop stop words (case-folded) and
empty tokens, rejoin; fall back to the stripped raw span if nothing is left. -/
def cleanItemName (raw : String) : String :=
  let words := (pySplitL (pyStripL raw.data)).map (fun l => String.mk l)
  let cleaned := words.filter (fun w =>
    !parserStopWords.contains (toLowerS w) && w ≠ "")
  if cleaned.isEmpty then pyStripS raw
  else pyStripS ⟨(String.intercalate " " cleaned).data⟩

/-- CommandParser._try_structured_parse: the five patterns in order,
first match wins. -/
def tryStructuredParse (text : String) : Option ParsedCommand :=
  match reMatch pat1 text.data with
  | some caps =>
    some { action := "add", item := cleanItemName ⟨capOf caps 2⟩,
           quantity := natOfDigits (capOf caps 1), confidence := tierOneConfidence,
           rawText := text }
  | none =>
  match reMatch pat2 text.data with
  | some caps =>
    some { action := "remove", item := cleanItemName ⟨capOf caps 2⟩,
           quantity := natOfDigits (capOf caps 1), confidence := tierOneConfidence,
           rawText := text }
  | none =>
  match reMatch pat3 text.data with
  | some caps =>
    some { action := "update", item := cleanItemName ⟨capOf caps 1⟩,
           quantity := natOfDigits (capOf caps 2), confidence := tierOneConfidence,
           rawText := text }
  | none =>
  match reMatch pat4 text.data with
  | some caps =>
    some { action := "check", item := cleanItemName ⟨capOf caps 1⟩,
           quantity := 0, confidence := tierOneConfidence, rawText := text }
  | none =>
  match reMatch pat5 text.data with
  | some _ =>
    some { action := "list", item := "all", quantity := 0, confidence := tierOneConfidence,
           rawText := text }
  | none => none

/-- The action_map of _flexible_parse, in insertion (scan) order. -/
def actionMap : List (String × String) :=
  [("add", "add"), ("put", "add"), ("insert", "add"),
   ("remove", "remove"), ("delete", "remove"), ("take", "remove"),
   ("update", "update"), ("change", "update"), ("set", "update"),
   ("check", "check"), ("how", "check"),
   ("list", "list"), ("show", "list")]

/-- First word that is an action keyword, with its index. -/
def findActionIdx : List String → Nat → Option (String × Nat)
  | [], _ => none
  | w :: rest, i =>
    match actionMap.find? (fun p => p.1 = w) with
    | some p => some (p.2, i)
    | none => findActionIdx rest (i + 1)

/-- First purely-numeric word, its value and index. -/
def findDigitIdx : List String → Nat → Option (Nat × Nat)
  | [], _ => none
  | w :: rest, i =>
    if pyIsDigit w then some (natOfDigits w.data, i)
    else findDigitIdx rest (i + 1)

/-- The item-collection loop of _flexible_parse: break at the first stop
word, skip digit tokens and quantity words, keep the rest in order. -/
def collectItemWords : List String → List String
  | [] => []
  | w :: rest =>
    if parserStopWords.contains w || ["and", "also"].contains w then []
    else if pyIsDigit w || ["bags", "bag", "units", "unit", "of"].contains w then
      collectItemWords rest
    else w :: collectItemWords rest

/-- CommandParser._flexible_parse. -/
def flexibleParse (text : String) : Option ParsedCommand :=
  let words := pySplitS text
  match findActionIdx words 0 with
  | none => none
  | some (action, aIdx) =>
    let qOpt := findDigitIdx words 0
    let quantity := match qOpt with | some (q, _) => q | none => 0
    let startIdx := match qOpt with
      | some (_, qIdx) => max (aIdx + 1) (qIdx + 1)
      | none => aIdx + 1
    let item := String.intercalate " " (collectItemWords (words.drop startIdx))
    if item = "" then none
    else
      some { action := action, item := item,
             quantity := if 0 < quantity then quantity else 1,
             confidence := tierTwoConfidence, rawText := text }

/-- CommandParser.parse: strip and lowercase, tier 1 then tier 2. -/
def parse (text : String) : Option ParsedCommand :=
  if pyStripS text = "" then none
  else
    let t := toLowerS (pyStripS text)
    match tryStructuredParse t with
    | some p => some p
    | none => flexibleParse t

/-! ## Inventory service (src/backend/inventory_service.py)

The two SQLite tables are modelled as in-memory lists in insertion order
(`rowid` order), with `nextId` playing the autoincrement counter. The
`updated_at` column appears in the spec's schema contract; the service
never writes it (its UPDATE statements set only `quantity`), so it is
carried as opaque row data here. `schema.sql`, which would define its
default, is referenced by db_connection.init_database but is not in the
repository's source tree; creation stores 0 for it, and no embedded
operation reads it. -/

/-- A row of the `inventory` table. -/
structure Item where
  id : Nat
  name : String
  quantity : Int
  updatedAt : Nat
deriving DecidableEq, Repr

/-- A row of the `transaction_log` table. `previousQuantity` is `none` for
the insert that omits the column (new-item add). -/
structure LogEntry where
  action : String
  itemId : Option Nat
  itemName : String
  quantityChange : Int
  previousQuantity : Option Int
  newQuantity : Int
deriving DecidableEq, Repr

/-- The persistent state: both tables plus the autoincrement counter. -/
structure DB where
  items : List Item
  log : List LogEntry
  nextId : Nat
deriving DecidableEq, Repr

/-- The empty database (SQLite rowids start at 1). -/
def emptyDB : DB := ⟨[], [], 1⟩

/-- MESSAGES templates of src/shared/constants.py, instantiated the way
`str.format` instantiates them (ints rendered by `str`). -/
def itemAddedMsg (q : Int) (item : String) : String :=
  "Successfully added " ++ toString q ++ " " ++ item ++ "(s) to inventory"

/-- MESSAGES ITEM_REMOVED. -/
def itemRemovedMsg (q : Int) (item : String) : String :=
  "Successfully removed " ++ toString q ++ " " ++ item ++ "(s) from inventory"

/-- MESSAGES ITEM_UPDATED. -/
def itemUpdatedMsg (item : String) (q : Int) : String :=
  "Successfully updated " ++ item ++ " quantity to " ++ toString q

/-- MESSAGES ITEM_NOT_FOUND. -/
def itemNotFoundMsg (item : String) : String :=
  "Item " ++ item ++ " not found in inventory"

/-- MESSAGES INSUFFICIENT_STOCK (carries the available quantity). -/
def insufficientStockMsg (item : String) (avail : Int) : String :=
  "Insufficient stock for " ++ item ++ ". Available: " ++ toString avail

/-- MESSAGES INVALID_ACTION. -/
def invalidActionMsg (a : String) : String :=
  "Invalid action: " ++ a

/-- MESSAGES INVALID_COMMAND. -/
def invalidCommandMsg (c : String) : String :=
  "Could not parse command: " ++ c

/-- InventoryService.get_item:
`SELECT * FROM inventory WHERE LOWER(name) = LOWER(?)` with fetch_one —
the first row (in rowid order) whose case-folded name matches. -/
def getItem (db : DB) (name : String) : Option Item :=
  db.items.find? (fun it => toLowerS it.name = toLowerS name)

/-- The service's result triple `(success, message, item_data)`. -/
abbrev SvcResult := Bool × String × Option Item

/-- InventoryService.add_item: add to an existing item (case-insensitive
lookup) or create a new one; both write exactly one log row in the same
unit of work, and the returned item is re-queried after the mutation. -/
def addItem (db : DB) (name : String) (qty : Int) : SvcResult × DB :=
  match getItem db name with
  | some existing =>
    let newQ := existing.quantity + qty
    let items' := db.items.map (fun it =>
      if it.id = existing.id then { it with quantity := newQ } else it)
    let entry : LogEntry :=
      ⟨"add", some existing.id, name, qty, some existing.quantity, newQ⟩
    let db' : DB := { db with items := items', log := db.log ++ [entry] }
    ((true, itemAddedMsg qty name, getItem db' name), db')
  | none =>
    let newItem : Item := ⟨db.nextId, name, qty, 0⟩
    let entry : LogEntry := ⟨"add", some db.nextId, name, qty, none, qty⟩
    let db' : DB := ⟨db.items ++ [newItem], db.log ++ [entry], db.nextId + 1⟩
    ((true, itemAddedMsg qty name, getItem db' name), db')

/-- InventoryService.remove_item: ItemNotFound and InsufficientStock guard
clauses return before any write; otherwise update plus one log row. -/
def removeItem (db : DB) (name : String) (qty : Int) : SvcResult × DB :=
  match getItem db name with
  | none => ((false, itemNotFoundMsg name, none), db)
  | some existing =>
    if existing.quantity < qty then
      ((false, insufficientStockMsg name existing.quantity, none), db)
    else
      let newQ := existing.quantity - qty
      let items' := db.items.map (fun it =>
        if it.id = existing.id then { it with quantity := newQ } else it)
      let entry : LogEntry :=
        ⟨"remove", some existing.id, name, -qty, some existing.quantity, newQ⟩
      let db' : DB := { db with items := items', log := db.log ++ [entry] }
      ((true, itemRemovedMsg qty name, getItem db' name), db')

/-- InventoryService.update_item: existence check first, then the negative
guard, then an absolute set plus one log row with the delta. -/
def updateItem (db : DB) (name : String) (newQty : Int) : SvcResult × DB :=
  match getItem db name with
  | none => ((false, itemNotFoundMsg name, none), db)
  | some existing =>
    if newQty < 0 then
      ((false, "Quantity cannot be negative", none), db)
    else
      let items' := db.items.map (fun it =>
        if it.id = existing.id then { it with quantity := newQty } else it)
      let entry : LogEntry :=
        ⟨"update", some existing.id, name, newQty - existing.quantity,
         some existing.quantity, newQty⟩
      let db' : DB := { db with items := items', log := db.log ++ [entry] }
      ((true, itemUpdatedMsg name newQty, getItem db' name), db')

/-- The descending-id order of `ORDER BY id DESC` (ids are the primary
key, so ties are immaterial). -/
def idDescR (a b : Item) : Prop := b.id ≤ a.id

instance : DecidableRel idDescR := fun a b => Nat.decLe b.id a.id

instance : IsTotal Item idDescR :=
  ⟨fun a b => Nat.le_total b.id a.id⟩

instance : IsTrans Item idDescR :=
  ⟨fun _ _ _ h1 h2 => Nat.le_trans h2 h1⟩

/-- InventoryService.get_all_items:
`SELECT * FROM inventory ORDER BY id DESC`. (In the source this function's
`try` block has lost its `except` handler — the orphaned `return []` after
`return items` marks where it was — so we embed the query it performs.) -/
def getAllItems (db : DB) : List Item :=
  List.insertionSort idDescR db.items

/-- InventoryService.LOW_STOCK_THRESHOLD. -/
def lowStockThreshold : Int := 5

/-! ## Routes (src/backend/routes.py) -/

/-- The `data` payload of a route result: a single item row or a row list. -/
inductive RouteData where
  | one (it : Item)
  | many (l : List Item)
deriving DecidableEq, Repr

/-- The uniform result envelope shaped by the routes. -/
structure RouteResult where
  success : Bool
  message : String
  data : Option RouteData
deriving DecidableEq, Repr

/-- get_inventory: list all items and attach the derived `status` field
(`out-of-stock` if quantity ≤ 0, `low-stock` if below the threshold,
else `in-stock`). -/
def statusOf (q : Int) : String :=
  if q ≤ 0 then "out-of-stock"
  else if q < lowStockThreshold then "low-stock"
  else "in-stock"

/-- get_inventory's payload: each listed item with its derived status. -/
def getInventoryRoute (db : DB) : List (Item × String) :=
  (getAllItems db).map (fun it => (it, statusOf it.quantity))

/-- add_inventory: the direct add endpoint rejects a non-positive quantity
before calling the service. -/
def addInventoryRoute (db : DB) (item : String) (quantity : Int) :
    RouteResult × DB :=
  if quantity ≤ 0 then ((⟨false, "Quantity must be positive", none⟩ : RouteResult), db)
  else
    let r := addItem db item quantity
    ((⟨r.1.1, r.1.2.1, r.1.2.2.map RouteData.one⟩ : RouteResult), r.2)

/-- execute_inventory_action: dispatch a parsed command to the service.
Note there is no quantity validation on any branch. -/
def executeInventoryAction (db : DB) (parsed : ParsedCommand) :
    RouteResult × DB :=
  if parsed.action = "add" then
    let r := addItem db parsed.item (parsed.quantity : Int)
    ((⟨r.1.1, r.1.2.1, r.1.2.2.map RouteData.one⟩ : RouteResult), r.2)
  else if parsed.action = "remove" then
    let r := removeItem db parsed.item (parsed.quantity : Int)
    ((⟨r.1.1, r.1.2.1, r.1.2.2.map RouteData.one⟩ : RouteResult), r.2)
  else if parsed.action = "update" then
    let r := updateItem db parsed.item (parsed.quantity : Int)
    ((⟨r.1.1, r.1.2.1, r.1.2.2.map RouteData.one⟩ : RouteResult), r.2)
  else if parsed.action = "check" then
    match getItem db parsed.item with
    | some it =>
      ((⟨true, parsed.item ++ " has " ++ toString it.quantity ++ " units",
        some (RouteData.one it)⟩ : RouteResult), db)
    | none =>
      ((⟨false, itemNotFoundMsg parsed.item, none⟩ : RouteResult), db)
  else if parsed.action = "list" then
    ((⟨true, "Found " ++ toString (getAllItems db).length ++ " items",
      some (RouteData.many (getAllItems db))⟩ : RouteResult), db)
  else
    ((⟨false, invalidActionMsg parsed.action, none⟩ : RouteResult), db)

/-- handle_voice_command, text branch: process_text_input strips the text,
parse it, and only on a successful parse run execute_inventory_action; a
failed parse answers INVALID_COMMAND and touches nothing. -/
def handleVoiceText (db : DB) (text : String) : RouteResult × DB :=
  let commandText := pyStripS text
  match parse commandText with
  | none => ((⟨false, invalidCommandMsg commandText, none⟩ : RouteResult), db)
  | some parsed => executeInventoryAction db parsed

/-! ## Operation sequences (for the reconciliation invariant) -/

/-- An add or remove call as dispatched to the service. -/
inductive Op where
  | add (name : String) (qty : Int)
  | remove (name : String) (qty : Int)
deriving DecidableEq, Repr

/-- Run one operation (failed operations leave the state unchanged, as the
service's guard clauses return before any write). -/
def applyOp (db : DB) : Op → DB
  | .add n q => (addItem db n q).2
  | .remove n q => (removeItem db n q).2

/-- Run a sequence of operations from a starting state. -/
def runOps (ops : List Op) (db : DB) : DB :=
  ops.foldl applyOp db

/-- The caller-side validation of add quantities: every route that reaches
the service's add rejects non-positive quantities (direct endpoint) or
draws the quantity from a digit capture (dispatcher), so adds carry a
non-negative quantity. Removes need no side condition. -/
def addQtyOk : Op → Prop
  | .add _ q => 0 ≤ q
  | .remove _ _ => True

instance : DecidablePred addQtyOk := fun op =>
  match op with
  | .add _ q => inferInstanceAs (Decidable (0 ≤ q))
  | .remove _ _ => inferInstanceAs (Decidable True)

/-- Sum of the `quantity_change` column over the log rows of one item id. -/
def logSumFor (log : List LogEntry) (id : Nat) : Int :=
  ((log.filter (fun e => e.itemId = some id)).map
    (fun e => e.quantityChange)).sum

/-! ## Spec-side definitions used for refinement comparisons -/

/-- Modelled from the spec: the ordering the spec prescribes for `list()` —
"ordered by most-recently-updated first, ties broken by descending id"
(spec section 4.2). The `updated_at` maintenance itself lives in the
missing schema.sql; rows carry `updatedAt` as data and this comparator
reads it. -/
def specBefore (x y : Item) : Prop :=
  y.updatedAt < x.updatedAt ∨ (y.updatedAt = x.updatedAt ∧ y.id ≤ x.id)

instance : DecidableRel specBefore := fun x y =>
  inferInstanceAs (Decidable (_ ∨ _))

/-- Modelled from the spec: `list()` ordered most-recently-updated first,
ties by descending id. -/
def specListOrder (items : List Item) : List Item :=
  List.insertionSort specBefore items

/-- Invariant bundle carried through add/remove sequences: ids stay below
the autoincrement counter, log rows reference only allocated ids, every
item's quantity equals the sum of its log rows' quantity changes, and
quantities are non-negative. -/
structure DBInv (db : DB) : Prop where
  idsBelow : ∀ it ∈ db.items, it.id < db.nextId
  logBelow : ∀ e ∈ db.log, ∀ i, e.itemId = some i → i < db.nextId
  recon : ∀ it ∈ db.items, it.quantity = logSumFor db.log it.id
  nonneg : ∀ it ∈ db.items, 0 ≤ it.quantity

/-- A well-formed digit token: nonempty, all ASCII digits. -/
abbrev GoodDigits (qs : List Char) : Prop :=
  qs ≠ [] ∧ ∀ c ∈ qs, isDigitCh c = true

/-- A well-formed single-word item for the structured patterns: nonempty,
all lowercase letters, not a stop word of the parser, and no unit word of
the pattern's optional unit group is a prefix of it (a unit-word prefix
would let the pattern's unit group consume part of the item). -/
abbrev GoodItemWord (item : List Char) (units : List String) : Prop :=
  item ≠ [] ∧ (∀ c ∈ item, isLowerAlpha c = true) ∧
    parserStopWords.contains (String.mk item) = false ∧
    ∀ u ∈ units, dropPre u.data item = none

/-- The item tokens of the amended tier-2 rule: the words strictly after
both the action index and the quantity index, truncated at the first stop
word, with digit tokens and the unit words skipped. -/
def amendedItemTokens (ws : List String) : List String :=
  match findActionIdx ws 0 with
  | none => []
  | some (_, aIdx) =>
    let startIdx := match findDigitIdx ws 0 with
      | some (_, qIdx) => max (aIdx + 1) (qIdx + 1)
      | none => aIdx + 1
    ((ws.drop startIdx).takeWhile (fun w =>
        !(parserStopWords.contains w || ["and", "also"].contains w))).filter
      (fun w => !(pyIsDigit w || ["bags", "bag", "units", "unit", "of"].contains w))

/-! ## Theorems -/

/-- C2: `remove(x, q)` fails with ItemNotFound when no item matches x
(case-insensitively) and with InsufficientStock (message carrying the
available quantity) when the stock is short; in both cases the returned
state is the input state — no item row mutated, no log entry written. -/
theorem c2_remove_failure_safety (db : DB) (x : String) (q : Int) :
    (getItem db x = none →
      removeItem db x q = ((false, itemNotFoundMsg x, none), db)) ∧
    (∀ ex : Item, getItem db x = some ex → ex.quantity < q →
      removeItem db x q = ((false, insufficientStockMsg x ex.quantity, none), db) ∧
      ∃ pre post : String,
        insufficientStockMsg x ex.quantity = pre ++ toString ex.quantity ++ post) := by
  refine ⟨fun h => by simp [removeItem, h], fun ex hex hlt => ⟨by simp [removeItem, hex, hlt], ?_⟩⟩
  refine ⟨"Insufficient stock for " ++ x ++ ". Available: ", "", ?_⟩
  simp [insufficientStockMsg, String.append_assoc]

/-- Witness for C2 at a concrete database. -/
theorem c2_remove_failure_safety_w :
    removeItem ⟨[⟨1, "rice", 3, 0⟩], [], 2⟩ "beans" 1
      = ((false, itemNotFoundMsg "beans", none), ⟨[⟨1, "rice", 3, 0⟩], [], 2⟩) ∧
    removeItem ⟨[⟨1, "rice", 3, 0⟩], [], 2⟩ "rice" 5
      = ((false, insufficientStockMsg "rice" 3, none), ⟨[⟨1, "rice", 3, 0⟩], [], 2⟩) :=
  ⟨(c2_remove_failure_safety _ "beans" 1).1 (by decide),
   ((c2_remove_failure_safety _ "rice" 5).2 ⟨1, "rice", 3, 0⟩ (by decide) (by decide)).1⟩

/-- C4: `update(x, q)` fails with ItemNotFound when x is absent; fails
validation with no mutation and no log entry when q is negative (and the
item exists, since the source checks existence first); otherwise sets the
quantity to exactly q and writes one log entry with action `update` and
`quantity_change = q - previous`. -/
theorem c4_update_exact (db : DB) (x : String) (q : Int) :
    (getItem db x = none →
      updateItem db x q = ((false, itemNotFoundMsg x, none), db)) ∧
    (∀ ex : Item, getItem db x = some ex → q < 0 →
      updateItem db x q = ((false, "Quantity cannot be negative", none), db)) ∧
    (∀ ex : Item, getItem db x = some ex → 0 ≤ q →
      (updateItem db x q).1.1 = true ∧
      getItem (updateItem db x q).2 x = some { ex with quantity := q } ∧
      (updateItem db x q).2.log
        = db.log ++ [⟨"update", some ex.id, x, q - ex.quantity, some ex.quantity, q⟩]) := by
  refine ⟨fun h => by simp [updateItem, h], fun ex hex hneg => by simp [updateItem, hex, hneg],
    fun ex hex hpos => ?_⟩
  have hlt : ¬ q < 0 := by omega
  refine ⟨by simp [updateItem, hex, hlt], ?_, by simp [updateItem, hex, hlt]⟩
  have hname : ∀ it : Item,
      (if it.id = ex.id then { it with quantity := q } else it).name = it.name := by
    intro it
    split <;> rfl
  have heq : (updateItem db x q).2.items
      = db.items.map (fun it => if it.id = ex.id then { it with quantity := q } else it) := by
    simp only [updateItem]
    rw [hex]
    simp [hlt]
  simp only [getItem, heq]
  rw [List.find?_map]
  have hpred : ((fun it : Item => decide (toLowerS it.name = toLowerS x)) ∘
      (fun it : Item => if it.id = ex.id then { it with quantity := q } else it))
      = (fun it : Item => decide (toLowerS it.name = toLowerS x)) := by
    funext it
    simp [Function.comp, hname]
  rw [hpred]
  have hfind : db.items.find? (fun it : Item => decide (toLowerS it.name = toLowerS x))
      = some ex := hex
  rw [hfind]
  simp

/-- Witness for C4 at a concrete database. -/
theorem c4_update_exact_w :
    updateItem ⟨[⟨1, "rice", 3, 0⟩], [], 2⟩ "beans" 4
      = ((false, itemNotFoundMsg "beans", none), ⟨[⟨1, "rice", 3, 0⟩], [], 2⟩) ∧
    updateItem ⟨[⟨1, "rice", 3, 0⟩], [], 2⟩ "rice" (-1)
      = ((false, "Quantity cannot be negative", none), ⟨[⟨1, "rice", 3, 0⟩], [], 2⟩) ∧
    getItem (updateItem ⟨[⟨1, "rice", 3, 0⟩], [], 2⟩ "rice" 20).2 "rice"
      = some ⟨1, "rice", 20, 0⟩ :=
  ⟨(c4_update_exact _ "beans" 4).1 (by decide),
   (c4_update_exact _ "rice" (-1)).2.1 ⟨1, "rice", 3, 0⟩ (by decide) (by decide),
   ((c4_update_exact _ "rice" 20).2.2 ⟨1, "rice", 3, 0⟩ (by decide) (by decide)).2.1⟩

/-- C8: an input that is empty or whitespace-only parses to none (the
parser is a total function, so no exception), and the voice-command route
answers INVALID_COMMAND without invoking any ledger operation — the state
it returns is its input state. -/
theorem c8_empty_parse (db : DB) (t : String) (h : pyStripS t = "") :
    parse t = none ∧
    handleVoiceText db t = ((⟨false, invalidCommandMsg "", none⟩ : RouteResult), db) := by
  have hempty : parse "" = none := by decide
  constructor
  · simp [parse, h]
  · simp [handleVoiceText, h, hempty]

/-- Witness for C8 on a whitespace-only input. -/
theorem c8_empty_parse_w :
    parse "   " = none ∧
    handleVoiceText emptyDB "   "
      = ((⟨false, invalidCommandMsg "", none⟩ : RouteResult), emptyDB) :=
  c8_empty_parse emptyDB "   " (by decide)

/-- C10: every command produced by the tier-2 flexible fallback carries
quantity at least 1; in particular an explicit quantity token `0` is
coerced to the default 1. -/
theorem c10_flexible_min_quantity :
    (∀ (text : String) (cmd : ParsedCommand),
        flexibleParse text = some cmd → 1 ≤ cmd.quantity) ∧
    flexibleParse "zzz add 0 rice"
      = some ⟨"add", "rice", 1, tierTwoConfidence, "zzz add 0 rice"⟩ := by
  constructor
  · intro text cmd h
    simp only [flexibleParse] at h
    cases hA : findActionIdx (pySplitS text) 0 with
    | none => rw [hA] at h; exact absurd h (by simp)
    | some p =>
      obtain ⟨act, aIdx⟩ := p
      rw [hA] at h
      cases hD : findDigitIdx (pySplitS text) 0 with
      | none =>
        rw [hD] at h
        simp only [] at h
        split at h
        · exact absurd h (by simp)
        · have hcmd := Option.some.inj h
          subst hcmd
          show 1 ≤ if 0 < (0 : Nat) then (0 : Nat) else 1
          split <;> omega
      | some p2 =>
        obtain ⟨q0, qIdx⟩ := p2
        rw [hD] at h
        simp only [] at h
        split at h
        · exact absurd h (by simp)
        · have hcmd := Option.some.inj h
          subst hcmd
          show 1 ≤ if 0 < q0 then q0 else 1
          split <;> omega
  · decide

/-- Witness for C10: the parse of "zzz add 0 rice" (quantity token `0`)
has quantity 1. -/
theorem c10_flexible_min_quantity_w :
    1 ≤ (ParsedCommand.mk "add" "rice" 1 tierTwoConfidence "zzz add 0 rice").quantity :=
  c10_flexible_min_quantity.1 "zzz add 0 rice" _ (by decide)

/-- Counterexample to C9: the dispatch path does not validate quantities.
`"add 0 rice"` parses at tier 1 with quantity 0, and dispatching that
command invokes the ledger's add — a row and a log entry are written with
quantity 0 — rather than rejecting it as the direct endpoint would. -/
theorem c9_dispatch_counterexample :
    parse "add 0 rice" = some ⟨"add", "rice", 0, tierOneConfidence, "add 0 rice"⟩ ∧
    (executeInventoryAction emptyDB ⟨"add", "rice", 0, tierOneConfidence, "add 0 rice"⟩).2
      = ⟨[⟨1, "rice", 0, 0⟩], [⟨"add", some 1, "rice", 0, none, 0⟩], 2⟩ := by
  constructor <;> decide

/-- C9 (amended): the direct add endpoint rejects a non-positive quantity
before invoking the ledger, but the command-dispatch path performs no such
check — dispatching a parsed add command with quantity 0 always invokes
the ledger's add (one log entry is written on every such dispatch). -/
theorem c9_add_endpoint_guard (db : DB) (item : String) (q : Int) (h : q ≤ 0) :
    addInventoryRoute db item q
      = ((⟨false, "Quantity must be positive", none⟩ : RouteResult), db) ∧
    ∀ (name : String) (conf : Rat) (raw : String),
      ((executeInventoryAction db ⟨"add", name, 0, conf, raw⟩).2).log.length
        = db.log.length + 1 := by
  constructor
  · simp [addInventoryRoute, h]
  · intro name conf raw
    simp only [executeInventoryAction, if_true]
    cases hx : getItem db name <;> simp [addItem, hx]

/-- Witness for C9 (amended) at quantity 0. -/
theorem c9_add_endpoint_guard_w :
    addInventoryRoute emptyDB "rice" 0
      = ((⟨false, "Quantity must be positive", none⟩ : RouteResult), emptyDB) ∧
    ((executeInventoryAction emptyDB ⟨"add", "x", 0, tierOneConfidence, "r"⟩).2).log.length
      = emptyDB.log.length + 1 :=
  ⟨(c9_add_endpoint_guard emptyDB "rice" 0 (by decide)).1,
   (c9_add_endpoint_guard emptyDB "rice" 0 (by decide)).2 "x" tierOneConfidence "r"⟩

/-- Counterexample to C6: `list()` orders by descending id only, which is
not "most-recently-updated first, ties by descending id" — on a table
where the row with the smaller id carries the later update stamp, the two
orders differ. -/
theorem c6_order_counterexample :
    getAllItems ⟨[⟨1, "a", 10, 10⟩, ⟨2, "b", 3, 5⟩], [], 3⟩
      ≠ specListOrder [⟨1, "a", 10, 10⟩, ⟨2, "b", 3, 5⟩] := by
  decide

/-- C6 (amended): `list()` returns all inventory items ordered by
descending id, and each returned item carries the derived status field
computed from its quantity with the default threshold 5. -/
theorem c6_list_id_desc_status (db : DB) :
    ((getInventoryRoute db).map Prod.fst).Pairwise idDescR ∧
    List.Perm ((getInventoryRoute db).map Prod.fst) db.items ∧
    ∀ p ∈ getInventoryRoute db,
      (p.1.quantity ≤ 0 → p.2 = "out-of-stock") ∧
      (0 < p.1.quantity → p.1.quantity < lowStockThreshold → p.2 = "low-stock") ∧
      (lowStockThreshold ≤ p.1.quantity → p.2 = "in-stock") := by
  have hmap : (getInventoryRoute db).map Prod.fst = getAllItems db := by
    have hcomp : (Prod.fst ∘ fun it : Item => (it, statusOf it.quantity)) = id := rfl
    simp [getInventoryRoute, List.map_map, hcomp]
  refine ⟨?_, ?_, ?_⟩
  · rw [hmap]
    exact List.sorted_insertionSort idDescR db.items
  · rw [hmap]
    exact List.perm_insertionSort idDescR db.items
  · intro p hp
    rcases List.mem_map.1 hp with ⟨it, _, rfl⟩
    dsimp only
    refine ⟨fun h0 => by simp [statusOf, h0], fun h1 h2 => ?_, fun h3 => ?_⟩
    · have h4 : ¬ it.quantity ≤ 0 := by omega
      simp [statusOf, h4, h2]
    · simp only [lowStockThreshold] at h3
      have h4 : ¬ it.quantity ≤ 0 := by omega
      have h5 : ¬ it.quantity < lowStockThreshold := by
        simp only [lowStockThreshold]
        omega
      simp [statusOf, h4, h5]

/-- Witness for C6 (amended) at a concrete table. -/
theorem c6_list_id_desc_status_w :
    ((⟨2, "b", 3, 0⟩, "low-stock") : Item × String).2 = "low-stock" :=
  ((c6_list_id_desc_status ⟨[⟨1, "a", 10, 10⟩, ⟨2, "b", 3, 0⟩], [], 3⟩).2.2
    (⟨2, "b", 3, 0⟩, "low-stock") (by decide)).2.1 (by decide) (by decide)

/-- Splitting the log sum over an append of log segments. -/
theorem logSumFor_append (l1 l2 : List LogEntry) (i : Nat) :
    logSumFor (l1 ++ l2) i = logSumFor l1 i + logSumFor l2 i := by
  simp [logSumFor, List.filter_append]

/-- The log sum of a single entry. -/
theorem logSumFor_single (e : LogEntry) (i : Nat) :
    logSumFor [e] i = if e.itemId = some i then e.quantityChange else 0 := by
  by_cases h : e.itemId = some i <;> simp [logSumFor, h]

/-- A log with only ids below `n` contributes nothing to id `n`. -/
theorem logSumFor_fresh (log : List LogEntry) (n : Nat)
    (h : ∀ e ∈ log, ∀ i, e.itemId = some i → i < n) :
    logSumFor log n = 0 := by
  have hnil : log.filter (fun e => e.itemId = some n) = [] := by
    rw [List.filter_eq_nil_iff]
    intro e he
    simp only [decide_eq_true_eq]
    intro hc
    exact absurd (h e he n hc) (lt_irrefl n)
  simp [logSumFor, hnil]

/-- Mutating one existing row (matched by id) and appending the matching
log entry preserves the invariant, provided the new quantity is
non-negative and the entry's change is the delta. -/
theorem mutateRow_inv (db : DB) (ex : Item) (newQ qc : Int) (a nm : String)
    (pq : Option Int) (hex : ex ∈ db.items) (hinv : DBInv db)
    (hnn : 0 ≤ newQ) (hqc : qc = newQ - ex.quantity) :
    DBInv ⟨db.items.map (fun it =>
        if it.id = ex.id then { it with quantity := newQ } else it),
      db.log ++ [⟨a, some ex.id, nm, qc, pq, newQ⟩], db.nextId⟩ := by
  constructor
  · intro it hit
    rcases List.mem_map.1 hit with ⟨it0, hit0, rfl⟩
    have h := hinv.idsBelow it0 hit0
    by_cases hid : it0.id = ex.id <;> simp [hid] <;> omega
  · intro e he i hei
    rcases List.mem_append.1 he with h | h
    · exact hinv.logBelow e h i hei
    · simp only [List.mem_singleton] at h
      subst h
      simp only [Option.some.injEq] at hei
      subst hei
      exact hinv.idsBelow ex hex
  · intro it hit
    rcases List.mem_map.1 hit with ⟨it0, hit0, rfl⟩
    rw [logSumFor_append, logSumFor_single]
    by_cases hid : it0.id = ex.id
    · rw [if_pos hid]
      dsimp only
      rw [hid, if_pos rfl]
      have hr := hinv.recon ex hex
      omega
    · rw [if_neg hid]
      have hne : ¬ ((some ex.id : Option Nat) = some it0.id) := by
        simp only [Option.some.injEq]
        exact fun hc => hid hc.symm
      rw [if_neg hne]
      have hr := hinv.recon it0 hit0
      omega
  · intro it hit
    rcases List.mem_map.1 hit with ⟨it0, hit0, rfl⟩
    by_cases hid : it0.id = ex.id
    · rw [if_pos hid]
      exact hnn
    · rw [if_neg hid]
      exact hinv.nonneg it0 hit0

/-- Creating a fresh row (with the next id) plus its log entry preserves
the invariant, provided the initial quantity is non-negative. -/
theorem createRow_inv (db : DB) (n : String) (q : Int) (hinv : DBInv db)
    (hq : 0 ≤ q) :
    DBInv ⟨db.items ++ [⟨db.nextId, n, q, 0⟩],
      db.log ++ [⟨"add", some db.nextId, n, q, none, q⟩], db.nextId + 1⟩ := by
  constructor
  · intro it hit
    dsimp only at hit ⊢
    rcases List.mem_append.1 hit with h | h
    · have := hinv.idsBelow it h
      omega
    · simp only [List.mem_singleton] at h
      subst h
      simp
  · intro e he i hei
    dsimp only at he hei ⊢
    rcases List.mem_append.1 he with h | h
    · have := hinv.logBelow e h i hei
      omega
    · simp only [List.mem_singleton] at h
      subst h
      simp only [Option.some.injEq] at hei
      omega
  · intro it hit
    dsimp only at hit ⊢
    rw [logSumFor_append, logSumFor_single]
    rcases List.mem_append.1 hit with h | h
    · have hlt := hinv.idsBelow it h
      have hne : ¬ ((some db.nextId : Option Nat) = some it.id) := by
        simp only [Option.some.injEq]
        omega
      simp only [hne, if_false]
      rw [hinv.recon it h]
      omega
    · simp only [List.mem_singleton] at h
      subst h
      have h0 : logSumFor db.log db.nextId = 0 :=
        logSumFor_fresh db.log db.nextId hinv.logBelow
      simp [h0]
  · intro it hit
    dsimp only at hit ⊢
    rcases List.mem_append.1 hit with h | h
    · exact hinv.nonneg it h
    · simp only [List.mem_singleton] at h
      subst h
      exact hq

/-- One add or remove step preserves the invariant. -/
theorem applyOp_inv (db : DB) (op : Op) (hinv : DBInv db) (hok : addQtyOk op) :
    DBInv (applyOp db op) := by
  cases op with
  | add n q =>
    have hq : (0 : Int) ≤ q := hok
    show DBInv (addItem db n q).2
    cases hx : getItem db n with
    | none =>
      have heq : (addItem db n q).2
          = ⟨db.items ++ [⟨db.nextId, n, q, 0⟩],
             db.log ++ [⟨"add", some db.nextId, n, q, none, q⟩], db.nextId + 1⟩ := by
        simp [addItem, hx]
      rw [heq]
      exact createRow_inv db n q hinv hq
    | some ex =>
      have hex := List.mem_of_find?_eq_some hx
      have hnn : 0 ≤ ex.quantity + q := by
        have := hinv.nonneg ex hex
        omega
      have heq : (addItem db n q).2
          = ⟨db.items.map (fun it =>
              if it.id = ex.id then { it with quantity := ex.quantity + q } else it),
             db.log ++ [⟨"add", some ex.id, n, q, some ex.quantity, ex.quantity + q⟩],
             db.nextId⟩ := by
        simp [addItem, hx]
      rw [heq]
      exact mutateRow_inv db ex (ex.quantity + q) q "add" n (some ex.quantity)
        hex hinv hnn (by ring)
  | remove n q =>
    show DBInv (removeItem db n q).2
    cases hx : getItem db n with
    | none =>
      have heq : (removeItem db n q).2 = db := by simp [removeItem, hx]
      rw [heq]
      exact hinv
    | some ex =>
      by_cases hlt : ex.quantity < q
      · have heq : (removeItem db n q).2 = db := by simp [removeItem, hx, hlt]
        rw [heq]
        exact hinv
      · have hex := List.mem_of_find?_eq_some hx
        have hnn : 0 ≤ ex.quantity - q := by omega
        have heq : (removeItem db n q).2
            = ⟨db.items.map (fun it =>
                if it.id = ex.id then { it with quantity := ex.quantity - q } else it),
               db.log ++ [⟨"remove", some ex.id, n, -q, some ex.quantity,
                 ex.quantity - q⟩], db.nextId⟩ := by
          simp [removeItem, hx, hlt]
        rw [heq]
        exact mutateRow_inv db ex (ex.quantity - q) (-q) "remove" n (some ex.quantity)
          hex hinv hnn (by ring)

/-- The invariant holds after any operation sequence from an invariant
state. -/
theorem runOps_inv (ops : List Op) (db : DB) (hinv : DBInv db)
    (hok : ∀ op ∈ ops, addQtyOk op) : DBInv (runOps ops db) := by
  induction ops generalizing db with
  | nil => exact hinv
  | cons op rest ih =>
    exact ih (applyOp db op)
      (applyOp_inv db op hinv (hok op (List.mem_cons_self op rest)))
      (fun o ho => hok o (List.mem_cons_of_mem op ho))

/-- The empty ledger satisfies the invariant. -/
theorem emptyDB_inv : DBInv emptyDB := by
  refine ⟨?_, ?_, ?_, ?_⟩ <;> simp [emptyDB]

/-- C3: after any sequence of add/remove operations from the empty ledger
(adds carrying the caller-validated non-negative quantities), every item's
stored quantity equals the sum of the quantity_change values of its log
entries, and is non-negative. Since the sequence is universally
quantified, this holds after every prefix, i.e. after every operation of
any run. -/
theorem c3_reconciliation (ops : List Op) (hok : ∀ op ∈ ops, addQtyOk op) :
    ∀ it ∈ (runOps ops emptyDB).items,
      it.quantity = logSumFor (runOps ops emptyDB).log it.id ∧
      0 ≤ it.quantity := by
  have h := runOps_inv ops emptyDB emptyDB_inv hok
  exact fun it hit => ⟨h.recon it hit, h.nonneg it hit⟩

/-- Witness for C3: add 10 rice then remove 2; the stored quantity 8
equals the log sum for the item's id. -/
theorem c3_reconciliation_w :
    (⟨1, "rice", 8, 0⟩ : Item).quantity
      = logSumFor (runOps [Op.add "rice" 10, Op.remove "rice" 2] emptyDB).log
          (⟨1, "rice", 8, 0⟩ : Item).id ∧
    0 ≤ (⟨1, "rice", 8, 0⟩ : Item).quantity :=
  c3_reconciliation [Op.add "rice" 10, Op.remove "rice" 2] (by decide)
    ⟨1, "rice", 8, 0⟩ (by decide)

/-- Counterexample to C7: the tier-2 item name is not "every token of the
input that is not an action keyword, not the quantity token, and not a
stop word". Tokens before the action/quantity position are skipped — in
"rice add 3" the claim's rule yields item "rice", but the code collects
nothing and returns null — and collection stops at the first stop word —
in "add 5 rice and beans" the claim's rule yields "rice beans", but the
code returns "rice". -/
theorem c7_item_tokens_counterexample :
    flexibleParse "rice add 3" = none ∧
    flexibleParse "add 5 rice and beans"
      = some ⟨"add", "rice", 5, tierTwoConfidence, "add 5 rice and beans"⟩ := by
  constructor <;> decide

/-- The item-collection loop equals truncation at the first stop word
followed by dropping digit and unit tokens. -/
theorem collectItemWords_eq (l : List String) :
    collectItemWords l
      = (l.takeWhile (fun w =>
            !(parserStopWords.contains w || ["and", "also"].contains w))).filter
          (fun w => !(pyIsDigit w || ["bags", "bag", "units", "unit", "of"].contains w)) := by
  induction l with
  | nil => rfl
  | cons w rest ih =>
    simp only [collectItemWords, List.takeWhile_cons]
    cases hb1 : (parserStopWords.contains w || ["and", "also"].contains w) with
    | true => simp [hb1]
    | false =>
      cases hb2 : (pyIsDigit w || ["bags", "bag", "units", "unit", "of"].contains w) with
      | true =>
        have hcond : ¬ (pyIsDigit w = false ∧ ¬w = "bags" ∧ ¬w = "bag" ∧
            ¬w = "units" ∧ ¬w = "unit" ∧ ¬w = "of") := by
          have hb2' : pyIsDigit w = true ∨ w = "bags" ∨ w = "bag" ∨ w = "units" ∨
              w = "unit" ∨ w = "of" := by simpa using hb2
          rcases hb2' with h | h | h | h | h | h <;> simp [h]
        simp [hb1, hb2, ih, List.filter_cons, hcond]
      | false =>
        have hcond : pyIsDigit w = false ∧ ¬w = "bags" ∧ ¬w = "bag" ∧
            ¬w = "units" ∧ ¬w = "unit" ∧ ¬w = "of" := by simpa using hb2
        simp [hb1, hb2, ih, List.filter_cons, hcond]

/-- C7 (amended): tier-2 returns null when no token is an action keyword;
when it returns a command, the item is the join of the tokens strictly
after the action and quantity positions, truncated at the first stop
word, with digit and unit tokens skipped, preserving order — and that
token list is nonempty; when that token list is empty the parse is null. -/
theorem c7_flexible_item_rule :
    (∀ text : String,
        findActionIdx (pySplitS text) 0 = none → flexibleParse text = none) ∧
    (∀ (text : String) (cmd : ParsedCommand), flexibleParse text = some cmd →
        cmd.item = String.intercalate " " (amendedItemTokens (pySplitS text)) ∧
        amendedItemTokens (pySplitS text) ≠ []) ∧
    (∀ text : String,
        amendedItemTokens (pySplitS text) = [] → flexibleParse text = none) := by
  refine ⟨fun text h => by simp [flexibleParse, h], ?_, ?_⟩
  · intro text cmd h
    simp only [flexibleParse] at h
    cases hA : findActionIdx (pySplitS text) 0 with
    | none => rw [hA] at h; exact absurd h (by simp)
    | some p =>
      obtain ⟨act, aIdx⟩ := p
      rw [hA] at h
      simp only [] at h
      have htok : amendedItemTokens (pySplitS text)
          = collectItemWords ((pySplitS text).drop
              (match findDigitIdx (pySplitS text) 0 with
               | some (_, qIdx) => max (aIdx + 1) (qIdx + 1)
               | none => aIdx + 1)) := by
        rw [collectItemWords_eq]
        simp only [amendedItemTokens, hA]
      split at h
      · exact absurd h (by simp)
      · have hcmd := Option.some.inj h
        subst hcmd
        refine ⟨by rw [htok], ?_⟩
        rw [htok]
        intro hnil
        rename_i hne
        rw [hnil] at hne
        exact hne rfl
  · intro text hempty
    simp only [flexibleParse]
    cases hA : findActionIdx (pySplitS text) 0 with
    | none => simp
    | some p =>
      obtain ⟨act, aIdx⟩ := p
      simp only []
      have htok : amendedItemTokens (pySplitS text)
          = collectItemWords ((pySplitS text).drop
              (match findDigitIdx (pySplitS text) 0 with
               | some (_, qIdx) => max (aIdx + 1) (qIdx + 1)
               | none => aIdx + 1)) := by
        rw [collectItemWords_eq]
        simp only [amendedItemTokens, hA]
      rw [← htok, hempty]
      have hi : String.intercalate " " ([] : List String) = "" := rfl
      simp [hi]

/-- Witness for C7 (amended) on "add 5 fresh rice". -/
theorem c7_flexible_item_rule_w :
    (ParsedCommand.mk "add" "fresh rice" 5 tierTwoConfidence "add 5 fresh rice").item
      = String.intercalate " " (amendedItemTokens (pySplitS "add 5 fresh rice")) ∧
    amendedItemTokens (pySplitS "add 5 fresh rice") ≠ [] :=
  c7_flexible_item_rule.2.1 "add 5 fresh rice" _ (by decide)

/-! ### Character class facts -/

theorem isDigitCh_not_space {c : Char} (h : isDigitCh c = true) :
    isSpaceChar c = false := by
  simp [isDigitCh] at h
  simp [isSpaceChar]
  omega

theorem isLowerAlpha_not_space {c : Char} (h : isLowerAlpha c = true) :
    isSpaceChar c = false := by
  simp [isLowerAlpha] at h
  simp [isSpaceChar]
  omega

theorem isLowerAlpha_azWs {c : Char} (h : isLowerAlpha c = true) :
    isAzWs c = true := by
  simp [isAzWs, h]

/-! ### dropPre facts -/

theorem dropPre_sound : ∀ {t s r : List Char}, dropPre t s = some r → s = t ++ r
  | [], s, r, h => by simpa [dropPre] using (by simpa [dropPre] using h : s = r) ▸ rfl
  | a :: as, [], r, h => by simp [dropPre] at h
  | a :: as, b :: bs, r, h => by
    by_cases hab : a = b
    · subst hab
      simp only [dropPre, if_pos rfl] at h
      have := dropPre_sound h
      simp [this]
    · simp [dropPre, hab] at h

/-! ### head?/flatMap priority helpers -/

theorem head?_append_left {α : Type} {l1 l2 : List α} {a : α}
    (h : l1.head? = some a) : (l1 ++ l2).head? = some a := by
  cases l1 <;> simp_all

theorem flatMap_head_skip {α β : Type} (f : α → List β) (l1 l2 : List α)
    (h : ∀ y ∈ l1, f y = []) :
    ((l1 ++ l2).flatMap f).head? = (l2.flatMap f).head? := by
  induction l1 with
  | nil => simp
  | cons y ys ih =>
    simp only [List.cons_append, List.flatMap_cons, h y (by simp)]
    exact ih (fun z hz => h z (by simp [hz]))

/-! ### firstMatch composition -/

theorem firstMatch_seq2_head {a b : Re} {s : List Char} {x : List Char × Caps}
    {xs : List (List Char × Caps)} {r : List Char × Caps}
    (h : reMatches a s = x :: xs) (hb : firstMatch b x.1 = some r) :
    firstMatch (Re.seq2 a b) s = some (r.1, x.2 ++ r.2) := by
  obtain ⟨rest, hbr⟩ : ∃ rest, reMatches b x.1 = r :: rest := by
    cases hbb : reMatches b x.1 with
    | nil => simp [firstMatch, hbb] at hb
    | cons y ys =>
      simp only [firstMatch, hbb, List.head?_cons, Option.some.injEq] at hb
      exact ⟨ys, by rw [hb]⟩
  simp [firstMatch, reMatches, h, List.flatMap_cons, hbr]

theorem reMatches_seq2_nil {a b : Re} {s : List Char}
    (h : reMatches a s = []) : reMatches (Re.seq2 a b) s = [] := by
  simp [reMatches, h]

/-! ### Greedy-iteration characterizations -/

theorem starGSplits_stop (p : Char → Bool) (b : List Char)
    (hb : b = [] ∨ ∃ d l, b = d :: l ∧ p d = false) :
    starGSplits p b = [b] := by
  rcases hb with rfl | ⟨d, l, rfl, hd⟩
  · rfl
  · simp [starGSplits, hd]

theorem starGSplits_all_stop (p : Char → Bool) (a b : List Char)
    (ha : ∀ c ∈ a, p c = true)
    (hb : b = [] ∨ ∃ d l, b = d :: l ∧ p d = false) :
    ∃ xs, starGSplits p (a ++ b) = b :: xs := by
  induction a with
  | nil =>
    exact ⟨[], by simpa using starGSplits_stop p b hb⟩
  | cons c a' ih =>
    obtain ⟨xs, hxs⟩ := ih (fun d hd => ha d (by simp [hd]))
    refine ⟨xs ++ [c :: (a' ++ b)], ?_⟩
    simp [starGSplits, ha c (by simp), hxs]

theorem plusGSplits_one (p : Char → Bool) (c : Char) (b : List Char)
    (hc : p c = true)
    (hb : b = [] ∨ ∃ d l, b = d :: l ∧ p d = false) :
    plusGSplits p (c :: b) = [b] := by
  simp [plusGSplits, hc, starGSplits_stop p b hb]

theorem plusGSplits_all_stop (p : Char → Bool) (a b : List Char)
    (hne : a ≠ []) (ha : ∀ c ∈ a, p c = true)
    (hb : b = [] ∨ ∃ d l, b = d :: l ∧ p d = false) :
    ∃ xs, plusGSplits p (a ++ b) = b :: xs := by
  cases a with
  | nil => exact absurd rfl hne
  | cons c a' =>
    obtain ⟨xs, hxs⟩ := starGSplits_all_stop p a' b
      (fun d hd => ha d (by simp [hd])) hb
    exact ⟨xs, by simp [plusGSplits, ha c (by simp), hxs]⟩

theorem take_append_cancel (a b : List Char) :
    (a ++ b).take ((a ++ b).length - b.length) = a := by
  rw [List.length_append]
  rw [Nat.add_sub_cancel]
  exact List.take_left a b

/-! ### reMatches evaluation helpers -/

theorem reMatches_plusG_one (p : Char → Bool) (c : Char) (b : List Char)
    (hc : p c = true)
    (hb : b = [] ∨ ∃ d l, b = d :: l ∧ p d = false) :
    reMatches (.plusG p) (c :: b) = [(b, [])] := by
  simp [reMatches, plusGSplits_one p c b hc hb]

theorem reMatches_starG_stop (p : Char → Bool) (b : List Char)
    (hb : b = [] ∨ ∃ d l, b = d :: l ∧ p d = false) :
    reMatches (.starG p) b = [(b, [])] := by
  simp [reMatches, starGSplits_stop p b hb]

theorem reMatches_grp_plusG_all (n : Nat) (p : Char → Bool) (a b : List Char)
    (hne : a ≠ []) (ha : ∀ c ∈ a, p c = true)
    (hb : b = [] ∨ ∃ d l, b = d :: l ∧ p d = false) :
    ∃ xs, reMatches (.grp n (.plusG p)) (a ++ b) = (b, [(n, a)]) :: xs := by
  obtain ⟨xs, hxs⟩ := plusGSplits_all_stop p a b hne ha hb
  refine ⟨xs.map (fun r => (r, [(n, (a ++ b).take ((a ++ b).length - r.length))])), ?_⟩
  simp [reMatches, hxs, take_append_cancel]

theorem altStrs_cons (u : String) (us : List String) :
    altStrs (u :: us) = Re.alt2 (litS u) (altStrs us) := rfl

theorem reMatches_altStrs_nil (ss : List String) (s : List Char)
    (h : ∀ u ∈ ss, dropPre u.data s = none) :
    reMatches (altStrs ss) s = [] := by
  induction ss with
  | nil => simp [altStrs, altList, reMatches]
  | cons u us ih =>
    rw [altStrs_cons]
    simp only [reMatches]
    rw [ih (fun v hv => h v (by simp [hv]))]
    simp [litS, reMatches, h u (by simp)]

theorem reMatches_opt_of_nil (a : Re) (s : List Char)
    (h : reMatches a s = []) : reMatches (.opt a) s = [(s, [])] := by
  simp [reMatches, h]

/-! ### Lazy-iteration decomposition and the lazy-group head lemma -/

theorem plusLSplits_decomp (p : Char → Bool) (a b : List Char)
    (hne : a ≠ []) (ha : ∀ c ∈ a, p c = true) :
    ∃ l1, plusLSplits p (a ++ b) = l1 ++ b :: plusLSplits p b ∧
      ∀ y ∈ l1, ∃ r, y = r ++ b ∧ r ≠ [] ∧ ∀ c ∈ r, c ∈ a := by
  induction a with
  | nil => exact absurd rfl hne
  | cons c a' ih =>
    cases ha' : a' with
    | nil =>
      refine ⟨[], ?_, by simp⟩
      simp [plusLSplits, ha c (by simp)]
    | cons d a'' =>
      rw [← ha']
      obtain ⟨l1, hl1, hmem⟩ := ih (by rw [ha']; simp)
        (fun e he => ha e (by simp [he]))
      refine ⟨(a' ++ b) :: l1, ?_, ?_⟩
      · simp only [List.cons_append, plusLSplits, ha c (by simp), if_true,
          List.append_eq]
        rw [hl1]
      · intro y hy
        rcases List.mem_cons.1 hy with rfl | hy'
        · exact ⟨a', rfl, by rw [ha']; simp, fun e he => by simp [he]⟩
        · obtain ⟨r, hr1, hr2, hr3⟩ := hmem y hy'
          exact ⟨r, hr1, hr2, fun e he => by simp [hr3 e he]⟩

/-- Priority selection through a lazy split list: entries before the
designated split all fail, so the head of the flattened match list is the
first match at the designated split. -/
theorem lazy_flatMap_head (g : List Char → Caps) (restRe : Re)
    (l1 L2 : List (List Char)) (rest : List Char) (res : List Char × Caps)
    (tail : List (List Char × Caps))
    (hfail1 : ∀ y ∈ l1, reMatches restRe y = [])
    (htail : reMatches restRe rest = res :: tail) :
    ((l1 ++ rest :: L2).flatMap
        (fun r => (reMatches restRe r).map (fun y => (y.1, g r ++ y.2)))).head?
      = some (res.1, g rest ++ res.2) := by
  induction l1 with
  | nil => simp [List.flatMap_cons, htail]
  | cons y ys ih =>
    simp only [List.cons_append, List.flatMap_cons, hfail1 y (by simp),
      List.map_nil, List.nil_append]
    exact ih (fun z hz => hfail1 z (by simp [hz]))

theorem lazyGrpHead (n : Nat) (restRe : Re) (item rest : List Char)
    (res : List Char × Caps)
    (hne : item ≠ []) (halpha : ∀ c ∈ item, isLowerAlpha c = true)
    (hfail : ∀ r : List Char, r ≠ [] → (∀ c ∈ r, isLowerAlpha c = true) →
        reMatches restRe (r ++ rest) = [])
    (hsucc : firstMatch restRe rest = some res) :
    firstMatch (Re.seq2 (Re.grp n (Re.plusL isAzWs)) restRe) (item ++ rest)
      = some (res.1, (n, item) :: res.2) := by
  obtain ⟨l1, hl1, hmem⟩ := plusLSplits_decomp isAzWs item rest hne
    (fun c hc => isLowerAlpha_azWs (halpha c hc))
  obtain ⟨tail, htail⟩ : ∃ tail, reMatches restRe rest = res :: tail := by
    cases hbb : reMatches restRe rest with
    | nil => simp [firstMatch, hbb] at hsucc
    | cons y ys =>
      simp only [firstMatch, hbb, List.head?_cons, Option.some.injEq] at hsucc
      exact ⟨ys, by rw [hsucc]⟩
  have hfail1 : ∀ y ∈ l1, reMatches restRe y = [] := by
    intro y hy
    obtain ⟨r, rfl, hrne, hrsub⟩ := hmem y hy
    exact hfail r hrne (fun c hc => halpha c (hrsub c hc))
  have hkey := lazy_flatMap_head
    (fun r => [(n, (item ++ rest).take ((item ++ rest).length - r.length))])
    restRe l1 (plusLSplits isAzWs rest) rest res tail hfail1 htail
  simp only [firstMatch, reMatches, List.map_map, List.flatMap_map, Function.comp]
  rw [hl1]
  rw [hkey]
  simp [take_append_cancel]

theorem seqList_cons (e : Re) (rs : List Re) :
    seqList (e :: rs) = Re.seq2 e (seqList rs) := rfl

theorem plusG_headfail (p : Char → Bool) (c : Char) (l : List Char)
    (hc : p c = false) : reMatches (.plusG p) (c :: l) = [] := by
  simp [reMatches, plusGSplits, hc]

/-- On a nonempty all-letter remainder the trailing
`(?:\s+and|\s+also|$)` cannot match: the first two alternatives need
whitespace and the anchor needs the end. -/
theorem tailAlt_fail (r : List Char) (hne : r ≠ [])
    (halpha : ∀ c ∈ r, isLowerAlpha c = true) :
    reMatches (Re.seq2 tailAltRe .eps) r = [] := by
  cases r with
  | nil => exact absurd rfl hne
  | cons c r' =>
    have hws : isSpaceChar c = false := isLowerAlpha_not_space (halpha c (by simp))
    apply reMatches_seq2_nil
    simp [tailAltRe, altList, seqList, reMatches, plusGSplits, hws]

/-- On an all-letter remainder the optional `(?:of\s+)?` contributes only
its skip branch: either "of" is not a prefix, or the following `\s+`
fails on a letter (or the end). -/
theorem optOf_skip (item : List Char) (halpha : ∀ c ∈ item, isLowerAlpha c = true) :
    reMatches (.opt (seqList [litS "of", .plusG isSpaceChar])) item = [(item, [])] := by
  apply reMatches_opt_of_nil
  show reMatches (Re.seq2 (litS "of") (Re.seq2 (.plusG isSpaceChar) .eps)) item = []
  cases hof : dropPre "of".data item with
  | none =>
    apply reMatches_seq2_nil
    simp [litS, reMatches, hof]
  | some rem =>
    have hsub := dropPre_sound hof
    have hremAlpha : ∀ c ∈ rem, isLowerAlpha c = true := fun c hc =>
      halpha c (by rw [hsub]; simp [hc])
    simp only [reMatches, litS, hof]
    cases rem with
    | nil => simp [reMatches, plusGSplits]
    | cons c rem' =>
      have hws : isSpaceChar c = false :=
        isLowerAlpha_not_space (hremAlpha c (by simp))
      simp [reMatches, plusGSplits, hws]

/-- Pattern 1 on a canonical add utterance: quantity and item captured. -/
theorem pat1_head (qs item : List Char) (hq : GoodDigits qs)
    (hi : GoodItemWord item addUnits) :
    firstMatch pat1 ('a' :: 'd' :: 'd' :: ' ' :: (qs ++ ' ' :: item))
      = some ([], [(1, qs), (2, item)]) := by
  obtain ⟨hqne, hqd⟩ := hq
  obtain ⟨hine, hialpha, histop, hiunits⟩ := hi
  obtain ⟨d, qs', rfl⟩ : ∃ d qs', qs = d :: qs' := by
    cases qs with
    | nil => exact absurd rfl hqne
    | cons d qs' => exact ⟨d, qs', rfl⟩
  obtain ⟨ic, item', rfl⟩ : ∃ ic item', item = ic :: item' := by
    cases item with
    | nil => exact absurd rfl hine
    | cons ic item' => exact ⟨ic, item', rfl⟩
  have hdws : isSpaceChar d = false := isDigitCh_not_space (hqd d (by simp))
  have hicws : isSpaceChar ic = false :=
    isLowerAlpha_not_space (hialpha ic (by simp))
  have hicd : isDigitCh ic = false := by
    have h := hialpha ic (by simp)
    simp [isLowerAlpha] at h
    simp [isDigitCh]
    omega
  -- innermost: lazy item capture then the tail alternative at the end
  have H8 : firstMatch (seqList [.grp 2 (.plusL isAzWs), tailAltRe]) (ic :: item')
      = some ([], [(2, ic :: item')]) := by
    rw [seqList_cons]
    have := lazyGrpHead 2 (seqList [tailAltRe]) (ic :: item') [] ([], [])
      (by simp) hialpha
      (fun r hr ha => by simpa using tailAlt_fail r hr ha)
      (by decide)
    simpa using this
  have H7 : firstMatch (seqList [.opt (seqList [litS "of", .plusG isSpaceChar]),
      .grp 2 (.plusL isAzWs), tailAltRe]) (ic :: item')
      = some ([], [(2, ic :: item')]) := by
    rw [seqList_cons]
    simpa using firstMatch_seq2_head (optOf_skip (ic :: item') hialpha) H8
  have H6 : firstMatch (seqList [.starG isSpaceChar,
      .opt (seqList [litS "of", .plusG isSpaceChar]),
      .grp 2 (.plusL isAzWs), tailAltRe]) (ic :: item')
      = some ([], [(2, ic :: item')]) := by
    rw [seqList_cons]
    simpa using firstMatch_seq2_head
      (reMatches_starG_stop isSpaceChar (ic :: item')
        (Or.inr ⟨ic, item', rfl, hicws⟩)) H7
  have H5 : firstMatch (seqList [.opt (altStrs addUnits), .starG isSpaceChar,
      .opt (seqList [litS "of", .plusG isSpaceChar]),
      .grp 2 (.plusL isAzWs), tailAltRe]) (ic :: item')
      = some ([], [(2, ic :: item')]) := by
    rw [seqList_cons]
    simpa using firstMatch_seq2_head
      (reMatches_opt_of_nil _ _ (reMatches_altStrs_nil addUnits (ic :: item') hiunits)) H6
  have H4 : firstMatch (seqList [.plusG isSpaceChar, .opt (altStrs addUnits),
      .starG isSpaceChar, .opt (seqList [litS "of", .plusG isSpaceChar]),
      .grp 2 (.plusL isAzWs), tailAltRe]) (' ' :: ic :: item')
      = some ([], [(2, ic :: item')]) := by
    rw [seqList_cons]
    simpa using firstMatch_seq2_head
      (reMatches_plusG_one isSpaceChar ' ' (ic :: item') (by decide)
        (Or.inr ⟨ic, item', rfl, hicws⟩)) H5
  have H3 : firstMatch (seqList [.grp 1 (.plusG isDigitCh), .plusG isSpaceChar,
      .opt (altStrs addUnits), .starG isSpaceChar,
      .opt (seqList [litS "of", .plusG isSpaceChar]),
      .grp 2 (.plusL isAzWs), tailAltRe]) ((d :: qs') ++ ' ' :: ic :: item')
      = some ([], [(1, d :: qs'), (2, ic :: item')]) := by
    rw [seqList_cons]
    obtain ⟨xs, hxs⟩ := reMatches_grp_plusG_all 1 isDigitCh (d :: qs')
      (' ' :: ic :: item') (by simp) hqd (Or.inr ⟨' ', ic :: item', rfl, by decide⟩)
    simpa using firstMatch_seq2_head hxs H4
  have H2 : firstMatch (seqList [.plusG isSpaceChar, .grp 1 (.plusG isDigitCh),
      .plusG isSpaceChar, .opt (altStrs addUnits), .starG isSpaceChar,
      .opt (seqList [litS "of", .plusG isSpaceChar]),
      .grp 2 (.plusL isAzWs), tailAltRe]) (' ' :: ((d :: qs') ++ ' ' :: ic :: item'))
      = some ([], [(1, d :: qs'), (2, ic :: item')]) := by
    rw [seqList_cons]
    simpa using firstMatch_seq2_head
      (reMatches_plusG_one isSpaceChar ' ' ((d :: qs') ++ ' ' :: ic :: item')
        (by decide) (Or.inr ⟨d, qs' ++ ' ' :: ic :: item', by simp, hdws⟩)) H3
  have h1 : reMatches (altStrs ["add", "put", "insert"])
      ('a' :: 'd' :: 'd' :: ' ' :: ((d :: qs') ++ ' ' :: ic :: item'))
      = [((' ' :: ((d :: qs') ++ ' ' :: ic :: item')), [])] := by
    simp [altStrs, altList, litS, reMatches, dropPre]
  show firstMatch (seqList [altStrs ["add", "put", "insert"], .plusG isSpaceChar,
      .grp 1 (.plusG isDigitCh), .plusG isSpaceChar, .opt (altStrs addUnits),
      .starG isSpaceChar, .opt (seqList [litS "of", .plusG isSpaceChar]),
      .grp 2 (.plusL isAzWs), tailAltRe]) _ = _
  rw [seqList_cons]
  simpa using firstMatch_seq2_head h1 H2

/-! ### strip / lower / split / clean on well-formed utterances -/

theorem toLower_eq_self {c : Char} (h : c.toNat < 65 ∨ 90 < c.toNat) :
    c.toLower = c := by
  unfold Char.toLower
  rw [if_neg]
  omega

theorem map_toLower_id (l : List Char) (h : ∀ c ∈ l, c.toLower = c) :
    l.map Char.toLower = l := by
  induction l with
  | nil => rfl
  | cons c m ih => simp [h c (by simp), ih (fun d hd => h d (by simp [hd]))]

theorem toLowerS_eq_self (l : List Char) (h : ∀ c ∈ l, c.toLower = c) :
    toLowerS ⟨l⟩ = ⟨l⟩ := by
  simp only [toLowerS]
  rw [map_toLower_id l h]

theorem toLower_of_digit {c : Char} (h : isDigitCh c = true) : c.toLower = c := by
  simp [isDigitCh] at h
  exact toLower_eq_self (by omega)

theorem toLower_of_alpha {c : Char} (h : isLowerAlpha c = true) : c.toLower = c := by
  simp [isLowerAlpha] at h
  exact toLower_eq_self (by omega)

theorem pyStripL_eq_self (l : List Char)
    (h1 : ∀ c, l.head? = some c → isSpaceChar c = false)
    (h2 : ∀ c, l.getLast? = some c → isSpaceChar c = false) :
    pyStripL l = l := by
  cases l with
  | nil => rfl
  | cons c m =>
    have hc := h1 c rfl
    have hdrop : (c :: m).dropWhile (fun c => isSpaceChar c) = c :: m := by
      rw [List.dropWhile_cons]
      simp [hc]
    rw [pyStripL, hdrop]
    cases hrev : (c :: m).reverse with
    | nil => simp at hrev
    | cons x xs =>
      have hx : (c :: m).getLast? = some x := by
        rw [← List.head?_reverse, hrev]
        rfl
      have hxws := h2 x hx
      rw [List.dropWhile_cons]
      simp only [hxws, Bool.false_eq_true, if_false]
      rw [← hrev, List.reverse_reverse]

theorem pySplitAux_scan (w : List Char) (s acc : List Char)
    (h : ∀ c ∈ w, isSpaceChar c = false) :
    pySplitAux (w ++ s) acc = pySplitAux s (w.reverse ++ acc) := by
  induction w generalizing acc with
  | nil => simp
  | cons c m ih =>
    simp only [List.cons_append, pySplitAux, h c (by simp), Bool.false_eq_true,
      if_false, List.append_eq]
    rw [ih (c :: acc) (fun d hd => h d (by simp [hd]))]
    simp

theorem pySplitL_single (l : List Char) (hne : l ≠ [])
    (h : ∀ c ∈ l, isSpaceChar c = false) : pySplitL l = [l] := by
  have := pySplitAux_scan l [] [] h
  rw [List.append_nil] at this
  rw [pySplitL, this]
  have hrevne : l.reverse.isEmpty = false := by
    simp [List.isEmpty_iff, hne]
  simp [pySplitAux, hrevne]

theorem pySplitL_word_cons (w rest : List Char) (hne : w ≠ [])
    (h : ∀ c ∈ w, isSpaceChar c = false) :
    pySplitL (w ++ ' ' :: rest) = w :: pySplitL rest := by
  rw [pySplitL, pySplitAux_scan w (' ' :: rest) [] h]
  have hrevne : (w.reverse ++ []).isEmpty = false := by
    simp [List.isEmpty_iff, hne]
  simp only [pySplitAux, show isSpaceChar ' ' = true from rfl, if_true, hrevne,
    Bool.false_eq_true, if_false]
  simp [pySplitL]

theorem cleanItemName_single (item : List Char) (hne : item ≠ [])
    (halpha : ∀ c ∈ item, isLowerAlpha c = true)
    (hstop : parserStopWords.contains (String.mk item) = false) :
    cleanItemName ⟨item⟩ = ⟨item⟩ := by
  have hnws : ∀ c ∈ item, isSpaceChar c = false := fun c hc =>
    isLowerAlpha_not_space (halpha c hc)
  have hstrip : pyStripL item = item :=
    pyStripL_eq_self item
      (fun c hc => hnws c (List.mem_of_mem_head? (by rw [hc]; rfl)))
      (fun c hc => hnws c (List.mem_of_getLast?_eq_some hc))
  have hlow : toLowerS ⟨item⟩ = ⟨item⟩ :=
    toLowerS_eq_self item (fun c hc => toLower_of_alpha (halpha c hc))
  have hmkne : (String.mk item) ≠ "" := by
    intro hc
    apply hne
    have : (String.mk item).data = ("" : String).data := by rw [hc]
    simpa using this
  have hint : String.intercalate " " [(⟨item⟩ : String)] = ⟨item⟩ := rfl
  simp only [cleanItemName, show (String.mk item).data = item from rfl, hstrip,
    pySplitL_single item hne hnws, List.map_cons, List.map_nil,
    List.filter_cons, List.filter_nil, hlow, hstop, hmkne]
  simp [hmkne, hint, pyStripS, hstrip]

/-! ### group lookups on the concrete capture shapes -/

theorem capOf_pair_one (a b : List Char) : capOf [(1, a), (2, b)] 1 = a := rfl

theorem capOf_pair_two (a b : List Char) : capOf [(1, a), (2, b)] 2 = b := rfl

theorem capOf_single_one (a : List Char) : capOf [(1, a)] 1 = a := rfl

/-- Pattern 2 on a canonical remove utterance. -/
theorem pat2_head (qs item : List Char) (hq : GoodDigits qs)
    (hi : GoodItemWord item removeUnits) :
    firstMatch pat2 ('r' :: 'e' :: 'm' :: 'o' :: 'v' :: 'e' :: ' ' :: (qs ++ ' ' :: item))
      = some ([], [(1, qs), (2, item)]) := by
  obtain ⟨hqne, hqd⟩ := hq
  obtain ⟨hine, hialpha, histop, hiunits⟩ := hi
  obtain ⟨d, qs', rfl⟩ : ∃ d qs', qs = d :: qs' := by
    cases qs with
    | nil => exact absurd rfl hqne
    | cons d qs' => exact ⟨d, qs', rfl⟩
  obtain ⟨ic, item', rfl⟩ : ∃ ic item', item = ic :: item' := by
    cases item with
    | nil => exact absurd rfl hine
    | cons ic item' => exact ⟨ic, item', rfl⟩
  have hdws : isSpaceChar d = false := isDigitCh_not_space (hqd d (by simp))
  have hicws : isSpaceChar ic = false :=
    isLowerAlpha_not_space (hialpha ic (by simp))
  have H8 : firstMatch (seqList [.grp 2 (.plusL isAzWs), tailAltRe]) (ic :: item')
      = some ([], [(2, ic :: item')]) := by
    rw [seqList_cons]
    have := lazyGrpHead 2 (seqList [tailAltRe]) (ic :: item') [] ([], [])
      (by simp) hialpha
      (fun r hr ha => by simpa using tailAlt_fail r hr ha)
      (by decide)
    simpa using this
  have H7 : firstMatch (seqList [.opt (seqList [litS "of", .plusG isSpaceChar]),
      .grp 2 (.plusL isAzWs), tailAltRe]) (ic :: item')
      = some ([], [(2, ic :: item')]) := by
    rw [seqList_cons]
    simpa using firstMatch_seq2_head (optOf_skip (ic :: item') hialpha) H8
  have H6 : firstMatch (seqList [.starG isSpaceChar,
      .opt (seqList [litS "of", .plusG isSpaceChar]),
      .grp 2 (.plusL isAzWs), tailAltRe]) (ic :: item')
      = some ([], [(2, ic :: item')]) := by
    rw [seqList_cons]
    simpa using firstMatch_seq2_head
      (reMatches_starG_stop isSpaceChar (ic :: item')
        (Or.inr ⟨ic, item', rfl, hicws⟩)) H7
  have H5 : firstMatch (seqList [.opt (altStrs removeUnits), .starG isSpaceChar,
      .opt (seqList [litS "of", .plusG isSpaceChar]),
      .grp 2 (.plusL isAzWs), tailAltRe]) (ic :: item')
      = some ([], [(2, ic :: item')]) := by
    rw [seqList_cons]
    simpa using firstMatch_seq2_head
      (reMatches_opt_of_nil _ _
        (reMatches_altStrs_nil removeUnits (ic :: item') hiunits)) H6
  have H4 : firstMatch (seqList [.plusG isSpaceChar, .opt (altStrs removeUnits),
      .starG isSpaceChar, .opt (seqList [litS "of", .plusG isSpaceChar]),
      .grp 2 (.plusL isAzWs), tailAltRe]) (' ' :: ic :: item')
      = some ([], [(2, ic :: item')]) := by
    rw [seqList_cons]
    simpa using firstMatch_seq2_head
      (reMatches_plusG_one isSpaceChar ' ' (ic :: item') (by decide)
        (Or.inr ⟨ic, item', rfl, hicws⟩)) H5
  have H3 : firstMatch (seqList [.grp 1 (.plusG isDigitCh), .plusG isSpaceChar,
      .opt (altStrs removeUnits), .starG isSpaceChar,
      .opt (seqList [litS "of", .plusG isSpaceChar]),
      .grp 2 (.plusL isAzWs), tailAltRe]) ((d :: qs') ++ ' ' :: ic :: item')
      = some ([], [(1, d :: qs'), (2, ic :: item')]) := by
    rw [seqList_cons]
    obtain ⟨xs, hxs⟩ := reMatches_grp_plusG_all 1 isDigitCh (d :: qs')
      (' ' :: ic :: item') (by simp) hqd (Or.inr ⟨' ', ic :: item', rfl, by decide⟩)
    simpa using firstMatch_seq2_head hxs H4
  have H2 : firstMatch (seqList [.plusG isSpaceChar, .grp 1 (.plusG isDigitCh),
      .plusG isSpaceChar, .opt (altStrs removeUnits), .starG isSpaceChar,
      .opt (seqList [litS "of", .plusG isSpaceChar]),
      .grp 2 (.plusL isAzWs), tailAltRe]) (' ' :: ((d :: qs') ++ ' ' :: ic :: item'))
      = some ([], [(1, d :: qs'), (2, ic :: item')]) := by
    rw [seqList_cons]
    simpa using firstMatch_seq2_head
      (reMatches_plusG_one isSpaceChar ' ' ((d :: qs') ++ ' ' :: ic :: item')
        (by decide) (Or.inr ⟨d, qs' ++ ' ' :: ic :: item', by simp, hdws⟩)) H3
  have h1 : reMatches (altStrs ["remove", "delete", "take"])
      ('r' :: 'e' :: 'm' :: 'o' :: 'v' :: 'e' :: ' ' :: ((d :: qs') ++ ' ' :: ic :: item'))
      = [((' ' :: ((d :: qs') ++ ' ' :: ic :: item')), [])] := by
    simp [altStrs, altList, litS, reMatches, dropPre]
  show firstMatch (seqList [altStrs ["remove", "delete", "take"], .plusG isSpaceChar,
      .grp 1 (.plusG isDigitCh), .plusG isSpaceChar, .opt (altStrs removeUnits),
      .starG isSpaceChar, .opt (seqList [litS "of", .plusG isSpaceChar]),
      .grp 2 (.plusL isAzWs), tailAltRe]) _ = _
  rw [seqList_cons]
  simpa using firstMatch_seq2_head h1 H2

/-- Pattern 3 on a canonical update utterance. -/
theorem pat3_head (qs item : List Char) (hq : GoodDigits qs)
    (hi : GoodItemWord item []) :
    firstMatch pat3
      ('u' :: 'p' :: 'd' :: 'a' :: 't' :: 'e' :: ' ' ::
        (item ++ ' ' :: 't' :: 'o' :: ' ' :: qs))
      = some ([], [(1, item), (2, qs)]) := by
  obtain ⟨hqne, hqd⟩ := hq
  obtain ⟨hine, hialpha, histop, hiunits⟩ := hi
  obtain ⟨d, qs', rfl⟩ : ∃ d qs', qs = d :: qs' := by
    cases qs with
    | nil => exact absurd rfl hqne
    | cons d qs' => exact ⟨d, qs', rfl⟩
  obtain ⟨ic, item', rfl⟩ : ∃ ic item', item = ic :: item' := by
    cases item with
    | nil => exact absurd rfl hine
    | cons ic item' => exact ⟨ic, item', rfl⟩
  have hdws : isSpaceChar d = false := isDigitCh_not_space (hqd d (by simp))
  have hicws : isSpaceChar ic = false :=
    isLowerAlpha_not_space (hialpha ic (by simp))
  -- the continuation after the lazy item group, started at " to <digits>"
  have Hsucc : firstMatch (seqList [.plusG isSpaceChar,
      .opt (seqList [litS "quantity", .plusG isSpaceChar]), litS "to",
      .plusG isSpaceChar, .grp 2 (.plusG isDigitCh)])
      (' ' :: 't' :: 'o' :: ' ' :: (d :: qs'))
      = some ([], [(2, d :: qs')]) := by
    have G5 : firstMatch (seqList [Re.grp 2 (.plusG isDigitCh)]) (d :: qs')
        = some ([], [(2, d :: qs')]) := by
      rw [seqList_cons]
      obtain ⟨xs, hxs⟩ := reMatches_grp_plusG_all 2 isDigitCh (d :: qs') []
        (by simp) hqd (Or.inl rfl)
      rw [List.append_nil] at hxs
      have heps : firstMatch (seqList ([] : List Re)) [] = some ([], []) := rfl
      simpa using firstMatch_seq2_head hxs heps
    have G4 : firstMatch (seqList [.plusG isSpaceChar, Re.grp 2 (.plusG isDigitCh)])
        (' ' :: (d :: qs')) = some ([], [(2, d :: qs')]) := by
      rw [seqList_cons]
      simpa using firstMatch_seq2_head
        (reMatches_plusG_one isSpaceChar ' ' (d :: qs') (by decide)
          (Or.inr ⟨d, qs', rfl, hdws⟩)) G5
    have G3 : firstMatch (seqList [litS "to", .plusG isSpaceChar,
        Re.grp 2 (.plusG isDigitCh)]) ('t' :: 'o' :: ' ' :: (d :: qs'))
        = some ([], [(2, d :: qs')]) := by
      rw [seqList_cons]
      have hlit : reMatches (litS "to") ('t' :: 'o' :: ' ' :: (d :: qs'))
          = [((' ' :: (d :: qs')), [])] := by
        simp [litS, reMatches, dropPre]
      simpa using firstMatch_seq2_head hlit G4
    have G2 : firstMatch (seqList [.opt (seqList [litS "quantity", .plusG isSpaceChar]),
        litS "to", .plusG isSpaceChar, Re.grp 2 (.plusG isDigitCh)])
        ('t' :: 'o' :: ' ' :: (d :: qs')) = some ([], [(2, d :: qs')]) := by
      rw [seqList_cons]
      have hq0 : reMatches (.opt (seqList [litS "quantity", .plusG isSpaceChar]))
          ('t' :: 'o' :: ' ' :: (d :: qs'))
          = [(('t' :: 'o' :: ' ' :: (d :: qs')), [])] := by
        apply reMatches_opt_of_nil
        apply reMatches_seq2_nil
        simp [litS, reMatches, dropPre]
      simpa using firstMatch_seq2_head hq0 G3
    rw [seqList_cons]
    simpa using firstMatch_seq2_head
      (reMatches_plusG_one isSpaceChar ' ' ('t' :: 'o' :: ' ' :: (d :: qs'))
        (by decide) (Or.inr ⟨'t', 'o' :: ' ' :: (d :: qs'), rfl, by decide⟩)) G2
  have H3 : firstMatch (seqList [.grp 1 (.plusL isAzWs), .plusG isSpaceChar,
      .opt (seqList [litS "quantity", .plusG isSpaceChar]), litS "to",
      .plusG isSpaceChar, .grp 2 (.plusG isDigitCh)])
      ((ic :: item') ++ ' ' :: 't' :: 'o' :: ' ' :: (d :: qs'))
      = some ([], [(1, ic :: item'), (2, d :: qs')]) := by
    rw [seqList_cons]
    have := lazyGrpHead 1 (seqList [.plusG isSpaceChar,
        .opt (seqList [litS "quantity", .plusG isSpaceChar]), litS "to",
        .plusG isSpaceChar, .grp 2 (.plusG isDigitCh)])
      (ic :: item') (' ' :: 't' :: 'o' :: ' ' :: (d :: qs'))
      ([], [(2, d :: qs')]) (by simp) hialpha ?hfail Hsucc
    case hfail =>
      intro r hr ha
      cases r with
      | nil => exact absurd rfl hr
      | cons c r' =>
        have hws : isSpaceChar c = false := isLowerAlpha_not_space (ha c (by simp))
        rw [seqList_cons]
        apply reMatches_seq2_nil
        exact plusG_headfail isSpaceChar c _ hws
    simpa using this
  have H2 : firstMatch (seqList [.plusG isSpaceChar, .grp 1 (.plusL isAzWs),
      .plusG isSpaceChar, .opt (seqList [litS "quantity", .plusG isSpaceChar]),
      litS "to", .plusG isSpaceChar, .grp 2 (.plusG isDigitCh)])
      (' ' :: ((ic :: item') ++ ' ' :: 't' :: 'o' :: ' ' :: (d :: qs')))
      = some ([], [(1, ic :: item'), (2, d :: qs')]) := by
    rw [seqList_cons]
    simpa using firstMatch_seq2_head
      (reMatches_plusG_one isSpaceChar ' '
        ((ic :: item') ++ ' ' :: 't' :: 'o' :: ' ' :: (d :: qs')) (by decide)
        (Or.inr ⟨ic, item' ++ ' ' :: 't' :: 'o' :: ' ' :: (d :: qs'), by simp, hicws⟩)) H3
  have h1 : reMatches (altStrs ["update", "change", "set"])
      ('u' :: 'p' :: 'd' :: 'a' :: 't' :: 'e' :: ' ' ::
        ((ic :: item') ++ ' ' :: 't' :: 'o' :: ' ' :: (d :: qs')))
      = [((' ' :: ((ic :: item') ++ ' ' :: 't' :: 'o' :: ' ' :: (d :: qs'))), [])] := by
    simp [altStrs, altList, litS, reMatches, dropPre]
  show firstMatch (seqList [altStrs ["update", "change", "set"], .plusG isSpaceChar,
      .grp 1 (.plusL isAzWs), .plusG isSpaceChar,
      .opt (seqList [litS "quantity", .plusG isSpaceChar]), litS "to",
      .plusG isSpaceChar, .grp 2 (.plusG isDigitCh)]) _ = _
  rw [seqList_cons]
  simpa using firstMatch_seq2_head h1 H2

/-- Pattern 4 on a canonical check utterance. -/
theorem pat4_head (item : List Char) (hi : GoodItemWord item []) :
    firstMatch pat4 ('c' :: 'h' :: 'e' :: 'c' :: 'k' :: ' ' :: item)
      = some ([], [(1, item)]) := by
  obtain ⟨hine, hialpha, histop, hiunits⟩ := hi
  obtain ⟨ic, item', rfl⟩ : ∃ ic item', item = ic :: item' := by
    cases item with
    | nil => exact absurd rfl hine
    | cons ic item' => exact ⟨ic, item', rfl⟩
  have hicws : isSpaceChar ic = false :=
    isLowerAlpha_not_space (hialpha ic (by simp))
  have H3 : firstMatch (seqList [Re.grp 1 (.plusG isAzWs)]) (ic :: item')
      = some ([], [(1, ic :: item')]) := by
    rw [seqList_cons]
    obtain ⟨xs, hxs⟩ := reMatches_grp_plusG_all 1 isAzWs (ic :: item') []
      (by simp) (fun c hc => isLowerAlpha_azWs (hialpha c hc)) (Or.inl rfl)
    rw [List.append_nil] at hxs
    have heps : firstMatch (seqList ([] : List Re)) [] = some ([], []) := rfl
    simpa using firstMatch_seq2_head hxs heps
  have H2 : firstMatch (seqList [.plusG isSpaceChar, Re.grp 1 (.plusG isAzWs)])
      (' ' :: ic :: item') = some ([], [(1, ic :: item')]) := by
    rw [seqList_cons]
    simpa using firstMatch_seq2_head
      (reMatches_plusG_one isSpaceChar ' ' (ic :: item') (by decide)
        (Or.inr ⟨ic, item', rfl, hicws⟩)) H3
  have h1 : reMatches (altList [litS "check",
      seqList [litS "how", .plusG isSpaceChar, litS "many"],
      seqList [litS "quantity", .plusG isSpaceChar, litS "of"]])
      ('c' :: 'h' :: 'e' :: 'c' :: 'k' :: ' ' :: ic :: item')
      = [((' ' :: ic :: item'), [])] := by
    simp [altList, seqList, litS, reMatches, dropPre]
  show firstMatch (seqList [altList [litS "check",
      seqList [litS "how", .plusG isSpaceChar, litS "many"],
      seqList [litS "quantity", .plusG isSpaceChar, litS "of"]],
      .plusG isSpaceChar, Re.grp 1 (.plusG isAzWs)]) _ = _
  rw [seqList_cons]
  simpa using firstMatch_seq2_head h1 H2

/-! ### From firstMatch to reMatch, and pattern failures -/

theorem reMatch_eq_none (r : Re) (s : List Char) (h : reMatches r s = []) :
    reMatch r s = none := by
  simp [reMatch, h]

theorem reMatch_of_firstMatch {r : Re} {s : List Char} {x : List Char × Caps}
    (h : firstMatch r s = some x) : reMatch r s = some x.2 := by
  simp only [reMatch, firstMatch] at *
  rw [h]
  rfl

theorem patAltStrsFail (ss : List String) (rest : Re) (s : List Char)
    (h : ∀ u ∈ ss, dropPre u.data s = none) :
    reMatches (Re.seq2 (altStrs ss) rest) s = [] :=
  reMatches_seq2_nil (reMatches_altStrs_nil ss s h)

theorem alpha_ne_digit_char {c e : Char} (hc : isLowerAlpha c = true)
    (he : isDigitCh e = true) : c ≠ e := by
  intro h
  subst h
  simp [isLowerAlpha, isDigitCh] at hc he
  omega

theorem dropPre_cons_ne {a b : Char} (as bs : List Char) (h : a ≠ b) :
    dropPre (a :: as) (b :: bs) = none := by
  simp [dropPre, h]

/-! ### Structured-parse results on the canonical utterances -/

theorem structured_add (qs item : List Char) (hq : GoodDigits qs)
    (hi : GoodItemWord item addUnits) :
    tryStructuredParse ⟨'a' :: 'd' :: 'd' :: ' ' :: (qs ++ ' ' :: item)⟩
      = some ⟨"add", ⟨item⟩, natOfDigits qs, tierOneConfidence,
          ⟨'a' :: 'd' :: 'd' :: ' ' :: (qs ++ ' ' :: item)⟩⟩ := by
  have hm : reMatch pat1 (String.mk ('a' :: 'd' :: 'd' :: ' ' :: (qs ++ ' ' :: item))).data
      = some [(1, qs), (2, item)] :=
    reMatch_of_firstMatch (pat1_head qs item hq hi)
  simp only [tryStructuredParse, hm]
  rw [capOf_pair_one, capOf_pair_two, cleanItemName_single item hi.1 hi.2.1 hi.2.2.1]

theorem structured_remove (qs item : List Char) (hq : GoodDigits qs)
    (hi : GoodItemWord item removeUnits) :
    tryStructuredParse
        ⟨'r' :: 'e' :: 'm' :: 'o' :: 'v' :: 'e' :: ' ' :: (qs ++ ' ' :: item)⟩
      = some ⟨"remove", ⟨item⟩, natOfDigits qs, tierOneConfidence,
          ⟨'r' :: 'e' :: 'm' :: 'o' :: 'v' :: 'e' :: ' ' :: (qs ++ ' ' :: item)⟩⟩ := by
  have hm1 : reMatch pat1
      (String.mk ('r' :: 'e' :: 'm' :: 'o' :: 'v' :: 'e' :: ' ' :: (qs ++ ' ' :: item))).data
      = none := by
    apply reMatch_eq_none
    exact patAltStrsFail ["add", "put", "insert"] _ _
      (by intro u hu; fin_cases hu <;> rfl)
  have hm2 : reMatch pat2
      (String.mk ('r' :: 'e' :: 'm' :: 'o' :: 'v' :: 'e' :: ' ' :: (qs ++ ' ' :: item))).data
      = some [(1, qs), (2, item)] :=
    reMatch_of_firstMatch (pat2_head qs item hq hi)
  simp only [tryStructuredParse, hm1, hm2]
  rw [capOf_pair_one, capOf_pair_two, cleanItemName_single item hi.1 hi.2.1 hi.2.2.1]

theorem structured_update (qs item : List Char) (hq : GoodDigits qs)
    (hi : GoodItemWord item []) :
    tryStructuredParse
        ⟨'u' :: 'p' :: 'd' :: 'a' :: 't' :: 'e' :: ' ' ::
          (item ++ ' ' :: 't' :: 'o' :: ' ' :: qs)⟩
      = some ⟨"update", ⟨item⟩, natOfDigits qs, tierOneConfidence,
          ⟨'u' :: 'p' :: 'd' :: 'a' :: 't' :: 'e' :: ' ' ::
            (item ++ ' ' :: 't' :: 'o' :: ' ' :: qs)⟩⟩ := by
  have hm1 : reMatch pat1
      (String.mk ('u' :: 'p' :: 'd' :: 'a' :: 't' :: 'e' :: ' ' ::
        (item ++ ' ' :: 't' :: 'o' :: ' ' :: qs))).data = none := by
    apply reMatch_eq_none
    exact patAltStrsFail ["add", "put", "insert"] _ _
      (by intro u hu; fin_cases hu <;> rfl)
  have hm2 : reMatch pat2
      (String.mk ('u' :: 'p' :: 'd' :: 'a' :: 't' :: 'e' :: ' ' ::
        (item ++ ' ' :: 't' :: 'o' :: ' ' :: qs))).data = none := by
    apply reMatch_eq_none
    exact patAltStrsFail ["remove", "delete", "take"] _ _
      (by intro u hu; fin_cases hu <;> rfl)
  have hm3 : reMatch pat3
      (String.mk ('u' :: 'p' :: 'd' :: 'a' :: 't' :: 'e' :: ' ' ::
        (item ++ ' ' :: 't' :: 'o' :: ' ' :: qs))).data
      = some [(1, item), (2, qs)] :=
    reMatch_of_firstMatch (pat3_head qs item hq hi)
  simp only [tryStructuredParse, hm1, hm2, hm3]
  rw [capOf_pair_one, capOf_pair_two, cleanItemName_single item hi.1 hi.2.1 hi.2.2.1]

theorem structured_check (item : List Char) (hi : GoodItemWord item []) :
    tryStructuredParse ⟨'c' :: 'h' :: 'e' :: 'c' :: 'k' :: ' ' :: item⟩
      = some ⟨"check", ⟨item⟩, 0, tierOneConfidence,
          ⟨'c' :: 'h' :: 'e' :: 'c' :: 'k' :: ' ' :: item⟩⟩ := by
  have hm1 : reMatch pat1
      (String.mk ('c' :: 'h' :: 'e' :: 'c' :: 'k' :: ' ' :: item)).data = none := by
    apply reMatch_eq_none
    exact patAltStrsFail ["add", "put", "insert"] _ _
      (by intro u hu; fin_cases hu <;> rfl)
  have hm2 : reMatch pat2
      (String.mk ('c' :: 'h' :: 'e' :: 'c' :: 'k' :: ' ' :: item)).data = none := by
    apply reMatch_eq_none
    exact patAltStrsFail ["remove", "delete", "take"] _ _
      (by intro u hu; fin_cases hu <;> rfl)
  have hm3 : reMatch pat3
      (String.mk ('c' :: 'h' :: 'e' :: 'c' :: 'k' :: ' ' :: item)).data = none := by
    apply reMatch_eq_none
    exact patAltStrsFail ["update", "change", "set"] _ _
      (by intro u hu; fin_cases hu <;> rfl)
  have hm4 : reMatch pat4
      (String.mk ('c' :: 'h' :: 'e' :: 'c' :: 'k' :: ' ' :: item)).data
      = some [(1, item)] :=
    reMatch_of_firstMatch (pat4_head item hi)
  simp only [tryStructuredParse, hm1, hm2, hm3, hm4]
  rw [capOf_single_one, cleanItemName_single item hi.1 hi.2.1 hi.2.2.1]

/-! ### Lifting structured results through parse (strip and lower are
identities on the canonical utterances) -/

theorem last_in_suffix (pre item : List Char) (hne : item ≠ [])
    (h : ∀ c ∈ item, isSpaceChar c = false) :
    ∀ c, (pre ++ item).getLast? = some c → isSpaceChar c = false := by
  intro c hc
  rw [List.getLast?_append] at hc
  cases hl : item.getLast? with
  | none => exact absurd (List.getLast?_eq_none_iff.1 hl) hne
  | some lc =>
    rw [hl] at hc
    simp only [Option.or, Option.some.injEq] at hc
    subst hc
    exact h lc (List.mem_of_getLast?_eq_some hl)

theorem parse_of_structured (L : List Char) (p : ParsedCommand)
    (hhead : ∀ c, L.head? = some c → isSpaceChar c = false)
    (hlast : ∀ c, L.getLast? = some c → isSpaceChar c = false)
    (hne : L ≠ [])
    (hlow : ∀ c ∈ L, c.toLower = c)
    (hs : tryStructuredParse ⟨L⟩ = some p) :
    parse ⟨L⟩ = some p := by
  have hstrip : pyStripS ⟨L⟩ = ⟨L⟩ := by
    simp only [pyStripS, show (String.mk L).data = L from rfl,
      pyStripL_eq_self L hhead hlast]
  have hnes : (⟨L⟩ : String) ≠ "" := by
    intro hc
    apply hne
    have : (String.mk L).data = ("" : String).data := by rw [hc]
    simpa using this
  have hlowS : toLowerS ⟨L⟩ = ⟨L⟩ := toLowerS_eq_self L hlow
  simp only [parse, hstrip, if_neg hnes, hlowS, hs]

/-- C1 positive, add form, on the canonical character list. -/
theorem parse_add_mk (qs item : List Char) (hq : GoodDigits qs)
    (hi : GoodItemWord item addUnits) :
    parse ⟨'a' :: 'd' :: 'd' :: ' ' :: (qs ++ ' ' :: item)⟩
      = some ⟨"add", ⟨item⟩, natOfDigits qs, tierOneConfidence,
          ⟨'a' :: 'd' :: 'd' :: ' ' :: (qs ++ ' ' :: item)⟩⟩ := by
  have hL : 'a' :: 'd' :: 'd' :: ' ' :: (qs ++ ' ' :: item)
      = ('a' :: 'd' :: 'd' :: ' ' :: (qs ++ [' '])) ++ item := by
    simp
  apply parse_of_structured
  · intro c hc
    simp only [List.head?_cons, Option.some.injEq] at hc
    subst hc
    decide
  · rw [hL]
    exact last_in_suffix _ item hi.1
      (fun c hc => isLowerAlpha_not_space (hi.2.1 c hc))
  · simp
  · intro c hc
    simp only [List.mem_cons, List.mem_append] at hc
    rcases hc with rfl | rfl | rfl | rfl | hc | hc
    · decide
    · decide
    · decide
    · decide
    · exact toLower_of_digit (hq.2 c hc)
    · rcases hc with rfl | hc
      · decide
      · exact toLower_of_alpha (hi.2.1 c hc)
  · exact structured_add qs item hq hi

/-- C1 positive, remove form, on the canonical character list. -/
theorem parse_remove_mk (qs item : List Char) (hq : GoodDigits qs)
    (hi : GoodItemWord item removeUnits) :
    parse ⟨'r' :: 'e' :: 'm' :: 'o' :: 'v' :: 'e' :: ' ' :: (qs ++ ' ' :: item)⟩
      = some ⟨"remove", ⟨item⟩, natOfDigits qs, tierOneConfidence,
          ⟨'r' :: 'e' :: 'm' :: 'o' :: 'v' :: 'e' :: ' ' :: (qs ++ ' ' :: item)⟩⟩ := by
  have hL : 'r' :: 'e' :: 'm' :: 'o' :: 'v' :: 'e' :: ' ' :: (qs ++ ' ' :: item)
      = ('r' :: 'e' :: 'm' :: 'o' :: 'v' :: 'e' :: ' ' :: (qs ++ [' '])) ++ item := by
    simp
  apply parse_of_structured
  · intro c hc
    simp only [List.head?_cons, Option.some.injEq] at hc
    subst hc
    decide
  · rw [hL]
    exact last_in_suffix _ item hi.1
      (fun c hc => isLowerAlpha_not_space (hi.2.1 c hc))
  · simp
  · intro c hc
    simp only [List.mem_cons, List.mem_append] at hc
    rcases hc with rfl | rfl | rfl | rfl | rfl | rfl | rfl | hc | hc
    · decide
    · decide
    · decide
    · decide
    · decide
    · decide
    · decide
    · exact toLower_of_digit (hq.2 c hc)
    · rcases hc with rfl | hc
      · decide
      · exact toLower_of_alpha (hi.2.1 c hc)
  · exact structured_remove qs item hq hi

/-- C1 positive, update form, on the canonical character list. -/
theorem parse_update_mk (qs item : List Char) (hq : GoodDigits qs)
    (hi : GoodItemWord item []) :
    parse ⟨'u' :: 'p' :: 'd' :: 'a' :: 't' :: 'e' :: ' ' ::
        (item ++ ' ' :: 't' :: 'o' :: ' ' :: qs)⟩
      = some ⟨"update", ⟨item⟩, natOfDigits qs, tierOneConfidence,
          ⟨'u' :: 'p' :: 'd' :: 'a' :: 't' :: 'e' :: ' ' ::
            (item ++ ' ' :: 't' :: 'o' :: ' ' :: qs)⟩⟩ := by
  have hL : 'u' :: 'p' :: 'd' :: 'a' :: 't' :: 'e' :: ' ' ::
      (item ++ ' ' :: 't' :: 'o' :: ' ' :: qs)
      = ('u' :: 'p' :: 'd' :: 'a' :: 't' :: 'e' :: ' ' ::
          (item ++ [' ', 't', 'o', ' '])) ++ qs := by
    simp
  apply parse_of_structured
  · intro c hc
    simp only [List.head?_cons, Option.some.injEq] at hc
    subst hc
    decide
  · rw [hL]
    exact last_in_suffix _ qs hq.1
      (fun c hc => isDigitCh_not_space (hq.2 c hc))
  · simp
  · intro c hc
    simp only [List.mem_cons, List.mem_append] at hc
    rcases hc with rfl | rfl | rfl | rfl | rfl | rfl | rfl | hc | hc
    · decide
    · decide
    · decide
    · decide
    · decide
    · decide
    · decide
    · exact toLower_of_alpha (hi.2.1 c hc)
    · rcases hc with rfl | rfl | rfl | rfl | hc
      · decide
      · decide
      · decide
      · decide
      · exact toLower_of_digit (hq.2 c hc)
  · exact structured_update qs item hq hi

/-- C1 positive, check form, on the canonical character list. -/
theorem parse_check_mk (item : List Char) (hi : GoodItemWord item []) :
    parse ⟨'c' :: 'h' :: 'e' :: 'c' :: 'k' :: ' ' :: item⟩
      = some ⟨"check", ⟨item⟩, 0, tierOneConfidence,
          ⟨'c' :: 'h' :: 'e' :: 'c' :: 'k' :: ' ' :: item⟩⟩ := by
  have hL : 'c' :: 'h' :: 'e' :: 'c' :: 'k' :: ' ' :: item
      = ('c' :: 'h' :: 'e' :: 'c' :: 'k' :: [' ']) ++ item := by
    simp
  apply parse_of_structured
  · intro c hc
    simp only [List.head?_cons, Option.some.injEq] at hc
    subst hc
    decide
  · rw [hL]
    exact last_in_suffix _ item hi.1
      (fun c hc => isLowerAlpha_not_space (hi.2.1 c hc))
  · simp
  · intro c hc
    simp only [List.mem_cons] at hc
    rcases hc with rfl | rfl | rfl | rfl | rfl | rfl | hc
    · decide
    · decide
    · decide
    · decide
    · decide
    · decide
    · exact toLower_of_alpha (hi.2.1 c hc)
  · exact structured_check item hi

/-- Pattern 1 on the unit-word variant "add <qs> bags of <item>": the
optional unit group consumes "bags", `\s*` the space, the optional
"of\s+" the "of ", and the lazy group captures the item. -/
theorem pat1_units_head (qs item : List Char) (hq : GoodDigits qs)
    (hi : GoodItemWord item addUnits) :
    firstMatch pat1 ('a' :: 'd' :: 'd' :: ' ' ::
        (qs ++ ' ' :: 'b' :: 'a' :: 'g' :: 's' :: ' ' :: 'o' :: 'f' :: ' ' :: item))
      = some ([], [(1, qs), (2, item)]) := by
  obtain ⟨hqne, hqd⟩ := hq
  obtain ⟨hine, hialpha, histop, hiunits⟩ := hi
  obtain ⟨d, qs', rfl⟩ : ∃ d qs', qs = d :: qs' := by
    cases qs with
    | nil => exact absurd rfl hqne
    | cons d qs' => exact ⟨d, qs', rfl⟩
  obtain ⟨ic, item', rfl⟩ : ∃ ic item', item = ic :: item' := by
    cases item with
    | nil => exact absurd rfl hine
    | cons ic item' => exact ⟨ic, item', rfl⟩
  have hdws : isSpaceChar d = false := isDigitCh_not_space (hqd d (by simp))
  have hicws : isSpaceChar ic = false :=
    isLowerAlpha_not_space (hialpha ic (by simp))
  have hsp : isSpaceChar ' ' = true := by decide
  have hso : isSpaceChar 'o' = false := by decide
  have hsf : isSpaceChar 'f' = false := by decide
  have hsb : isSpaceChar 'b' = false := by decide
  have H8 : firstMatch (seqList [.grp 2 (.plusL isAzWs), tailAltRe]) (ic :: item')
      = some ([], [(2, ic :: item')]) := by
    rw [seqList_cons]
    have := lazyGrpHead 2 (seqList [tailAltRe]) (ic :: item') [] ([], [])
      (by simp) hialpha
      (fun r hr ha => by simpa using tailAlt_fail r hr ha)
      (by decide)
    simpa using this
  have H7 : firstMatch (seqList [.opt (seqList [litS "of", .plusG isSpaceChar]),
      .grp 2 (.plusL isAzWs), tailAltRe]) ('o' :: 'f' :: ' ' :: ic :: item')
      = some ([], [(2, ic :: item')]) := by
    rw [seqList_cons]
    have hof : reMatches (.opt (seqList [litS "of", .plusG isSpaceChar]))
        ('o' :: 'f' :: ' ' :: ic :: item')
        = ((ic :: item'), []) :: [(('o' :: 'f' :: ' ' :: ic :: item'), [])] := by
      simp [reMatches, seqList, litS, dropPre, plusGSplits, starGSplits, hicws, hsp, hso, hsf]
    simpa using firstMatch_seq2_head hof H8
  have H6 : firstMatch (seqList [.starG isSpaceChar,
      .opt (seqList [litS "of", .plusG isSpaceChar]),
      .grp 2 (.plusL isAzWs), tailAltRe]) (' ' :: 'o' :: 'f' :: ' ' :: ic :: item')
      = some ([], [(2, ic :: item')]) := by
    rw [seqList_cons]
    have hstar : reMatches (.starG isSpaceChar) (' ' :: 'o' :: 'f' :: ' ' :: ic :: item')
        = (('o' :: 'f' :: ' ' :: ic :: item'), []) ::
            [((' ' :: 'o' :: 'f' :: ' ' :: ic :: item'), [])] := by
      simp [reMatches, starGSplits, hsp, hso, hsf]
    simpa using firstMatch_seq2_head hstar H7
  have H5 : firstMatch (seqList [.opt (altStrs addUnits), .starG isSpaceChar,
      .opt (seqList [litS "of", .plusG isSpaceChar]),
      .grp 2 (.plusL isAzWs), tailAltRe])
      ('b' :: 'a' :: 'g' :: 's' :: ' ' :: 'o' :: 'f' :: ' ' :: ic :: item')
      = some ([], [(2, ic :: item')]) := by
    rw [seqList_cons]
    have hunits : ∃ xs, reMatches (.opt (altStrs addUnits))
        ('b' :: 'a' :: 'g' :: 's' :: ' ' :: 'o' :: 'f' :: ' ' :: ic :: item')
        = ((' ' :: 'o' :: 'f' :: ' ' :: ic :: item'), []) :: xs := by
      refine ⟨?_, ?_⟩
      · exact [(('s' :: ' ' :: 'o' :: 'f' :: ' ' :: ic :: item'), []),
          (('b' :: 'a' :: 'g' :: 's' :: ' ' :: 'o' :: 'f' :: ' ' :: ic :: item'), [])]
      · simp [reMatches, altStrs, altList, litS, dropPre]
    obtain ⟨xs, hxs⟩ := hunits
    simpa using firstMatch_seq2_head hxs H6
  have H4 : firstMatch (seqList [.plusG isSpaceChar, .opt (altStrs addUnits),
      .starG isSpaceChar, .opt (seqList [litS "of", .plusG isSpaceChar]),
      .grp 2 (.plusL isAzWs), tailAltRe])
      (' ' :: 'b' :: 'a' :: 'g' :: 's' :: ' ' :: 'o' :: 'f' :: ' ' :: ic :: item')
      = some ([], [(2, ic :: item')]) := by
    rw [seqList_cons]
    simpa using firstMatch_seq2_head
      (reMatches_plusG_one isSpaceChar ' '
        ('b' :: 'a' :: 'g' :: 's' :: ' ' :: 'o' :: 'f' :: ' ' :: ic :: item')
        (by decide)
        (Or.inr ⟨'b', 'a' :: 'g' :: 's' :: ' ' :: 'o' :: 'f' :: ' ' :: ic :: item',
          rfl, by decide⟩)) H5
  have H3 : firstMatch (seqList [.grp 1 (.plusG isDigitCh), .plusG isSpaceChar,
      .opt (altStrs addUnits), .starG isSpaceChar,
      .opt (seqList [litS "of", .plusG isSpaceChar]),
      .grp 2 (.plusL isAzWs), tailAltRe])
      ((d :: qs') ++ ' ' :: 'b' :: 'a' :: 'g' :: 's' :: ' ' :: 'o' :: 'f' :: ' ' :: ic :: item')
      = some ([], [(1, d :: qs'), (2, ic :: item')]) := by
    rw [seqList_cons]
    obtain ⟨xs, hxs⟩ := reMatches_grp_plusG_all 1 isDigitCh (d :: qs')
      (' ' :: 'b' :: 'a' :: 'g' :: 's' :: ' ' :: 'o' :: 'f' :: ' ' :: ic :: item')
      (by simp) hqd
      (Or.inr ⟨' ', 'b' :: 'a' :: 'g' :: 's' :: ' ' :: 'o' :: 'f' :: ' ' :: ic :: item',
        rfl, by decide⟩)
    simpa using firstMatch_seq2_head hxs H4
  have H2 : firstMatch (seqList [.plusG isSpaceChar, .grp 1 (.plusG isDigitCh),
      .plusG isSpaceChar, .opt (altStrs addUnits), .starG isSpaceChar,
      .opt (seqList [litS "of", .plusG isSpaceChar]),
      .grp 2 (.plusL isAzWs), tailAltRe])
      (' ' :: ((d :: qs') ++ ' ' :: 'b' :: 'a' :: 'g' :: 's' :: ' ' :: 'o' :: 'f' :: ' ' :: ic :: item'))
      = some ([], [(1, d :: qs'), (2, ic :: item')]) := by
    rw [seqList_cons]
    simpa using firstMatch_seq2_head
      (reMatches_plusG_one isSpaceChar ' '
        ((d :: qs') ++ ' ' :: 'b' :: 'a' :: 'g' :: 's' :: ' ' :: 'o' :: 'f' :: ' ' :: ic :: item')
        (by decide)
        (Or.inr ⟨d, qs' ++ ' ' :: 'b' :: 'a' :: 'g' :: 's' :: ' ' :: 'o' :: 'f' :: ' ' :: ic :: item',
          by simp, hdws⟩)) H3
  have h1 : reMatches (altStrs ["add", "put", "insert"])
      ('a' :: 'd' :: 'd' :: ' ' ::
        ((d :: qs') ++ ' ' :: 'b' :: 'a' :: 'g' :: 's' :: ' ' :: 'o' :: 'f' :: ' ' :: ic :: item'))
      = [((' ' :: ((d :: qs') ++ ' ' :: 'b' :: 'a' :: 'g' :: 's' :: ' ' :: 'o' :: 'f' :: ' ' :: ic :: item')), [])] := by
    simp [altStrs, altList, litS, reMatches, dropPre]
  show firstMatch (seqList [altStrs ["add", "put", "insert"], .plusG isSpaceChar,
      .grp 1 (.plusG isDigitCh), .plusG isSpaceChar, .opt (altStrs addUnits),
      .starG isSpaceChar, .opt (seqList [litS "of", .plusG isSpaceChar]),
      .grp 2 (.plusL isAzWs), tailAltRe]) _ = _
  rw [seqList_cons]
  simpa using firstMatch_seq2_head h1 H2

/-- Structured parse on the unit-word add variant. -/
theorem structured_add_units (qs item : List Char) (hq : GoodDigits qs)
    (hi : GoodItemWord item addUnits) :
    tryStructuredParse ⟨'a' :: 'd' :: 'd' :: ' ' ::
        (qs ++ ' ' :: 'b' :: 'a' :: 'g' :: 's' :: ' ' :: 'o' :: 'f' :: ' ' :: item)⟩
      = some ⟨"add", ⟨item⟩, natOfDigits qs, tierOneConfidence,
          ⟨'a' :: 'd' :: 'd' :: ' ' ::
            (qs ++ ' ' :: 'b' :: 'a' :: 'g' :: 's' :: ' ' :: 'o' :: 'f' :: ' ' :: item)⟩⟩ := by
  have hm : reMatch pat1 (String.mk ('a' :: 'd' :: 'd' :: ' ' ::
      (qs ++ ' ' :: 'b' :: 'a' :: 'g' :: 's' :: ' ' :: 'o' :: 'f' :: ' ' :: item))).data
      = some [(1, qs), (2, item)] :=
    reMatch_of_firstMatch (pat1_units_head qs item hq hi)
  simp only [tryStructuredParse, hm]
  rw [capOf_pair_one, capOf_pair_two, cleanItemName_single item hi.1 hi.2.1 hi.2.2.1]

/-- Parse of the unit-word add variant, canonical character list. -/
theorem parse_add_units_mk (qs item : List Char) (hq : GoodDigits qs)
    (hi : GoodItemWord item addUnits) :
    parse ⟨'a' :: 'd' :: 'd' :: ' ' ::
        (qs ++ ' ' :: 'b' :: 'a' :: 'g' :: 's' :: ' ' :: 'o' :: 'f' :: ' ' :: item)⟩
      = some ⟨"add", ⟨item⟩, natOfDigits qs, tierOneConfidence,
          ⟨'a' :: 'd' :: 'd' :: ' ' ::
            (qs ++ ' ' :: 'b' :: 'a' :: 'g' :: 's' :: ' ' :: 'o' :: 'f' :: ' ' :: item)⟩⟩ := by
  have hL : 'a' :: 'd' :: 'd' :: ' ' ::
      (qs ++ ' ' :: 'b' :: 'a' :: 'g' :: 's' :: ' ' :: 'o' :: 'f' :: ' ' :: item)
      = ('a' :: 'd' :: 'd' :: ' ' ::
          (qs ++ [' ', 'b', 'a', 'g', 's', ' ', 'o', 'f', ' '])) ++ item := by
    simp
  apply parse_of_structured
  · intro c hc
    simp only [List.head?_cons, Option.some.injEq] at hc
    subst hc
    decide
  · rw [hL]
    exact last_in_suffix _ item hi.1
      (fun c hc => isLowerAlpha_not_space (hi.2.1 c hc))
  · simp
  · intro c hc
    simp only [List.mem_cons, List.mem_append] at hc
    rcases hc with rfl | rfl | rfl | rfl | hc | hc
    · decide
    · decide
    · decide
    · decide
    · exact toLower_of_digit (hq.2 c hc)
    · rcases hc with rfl | rfl | rfl | rfl | rfl | rfl | rfl | rfl | rfl | hc
      · decide
      · decide
      · decide
      · decide
      · decide
      · decide
      · decide
      · decide
      · decide
      · exact toLower_of_alpha (hi.2.1 c hc)
  · exact structured_add_units qs item hq hi

/-! ### The quantity-first order fails both tiers -/

theorem pyIsDigit_mk (qs : List Char) (hq : GoodDigits qs) :
    pyIsDigit ⟨qs⟩ = true := by
  obtain ⟨hne, hd⟩ := hq
  simp only [pyIsDigit, Bool.and_eq_true, Bool.not_eq_true', List.all_eq_true]
  constructor
  · simp [List.isEmpty_iff, hne]
  · exact fun c hc => hd c hc

theorem digits_not_action (qs : List Char) (hq : GoodDigits qs) :
    actionMap.find? (fun p => p.1 = String.mk qs) = none := by
  obtain ⟨hne, hd⟩ := hq
  obtain ⟨d, qs', rfl⟩ : ∃ d qs', qs = d :: qs' := by
    cases qs with
    | nil => exact absurd rfl hne
    | cons d qs' => exact ⟨d, qs', rfl⟩
  have hdd : isDigitCh d = true := hd d (by simp)
  rw [List.find?_eq_none]
  intro p hp
  fin_cases hp <;>
    · simp only [decide_eq_true_eq]
      intro hc
      have hdc := congrArg String.data hc
      injection hdc with h1 _
      rw [← h1] at hdd
      exact absurd hdd (by decide)

/-- Tier 1 fails outright on any input starting with a digit: every one of
the five patterns opens with a letter-initial literal alternative. -/
theorem structured_digit_first_none (d : Char) (rest : List Char)
    (hd : isDigitCh d = true) :
    tryStructuredParse ⟨d :: rest⟩ = none := by
  have hv : ∀ (c : Char) (t : List Char), isLowerAlpha c = true →
      dropPre (c :: t) (d :: rest) = none := fun c t hc =>
    dropPre_cons_ne t rest (alpha_ne_digit_char hc hd)
  have hm1 : reMatch pat1 (String.mk (d :: rest)).data = none := by
    apply reMatch_eq_none
    apply patAltStrsFail
    intro u hu
    fin_cases hu
    · exact hv 'a' _ (by decide)
    · exact hv 'p' _ (by decide)
    · exact hv 'i' _ (by decide)
  have hm2 : reMatch pat2 (String.mk (d :: rest)).data = none := by
    apply reMatch_eq_none
    apply patAltStrsFail
    intro u hu
    fin_cases hu
    · exact hv 'r' _ (by decide)
    · exact hv 'd' _ (by decide)
    · exact hv 't' _ (by decide)
  have hm3 : reMatch pat3 (String.mk (d :: rest)).data = none := by
    apply reMatch_eq_none
    apply patAltStrsFail
    intro u hu
    fin_cases hu
    · exact hv 'u' _ (by decide)
    · exact hv 'c' _ (by decide)
    · exact hv 's' _ (by decide)
  have hm4 : reMatch pat4 (String.mk (d :: rest)).data = none := by
    apply reMatch_eq_none
    apply reMatches_seq2_nil
    have hch : dropPre "check".data (d :: rest) = none := hv 'c' _ (by decide)
    have hhow : dropPre "how".data (d :: rest) = none := hv 'h' _ (by decide)
    have hqty : dropPre "quantity".data (d :: rest) = none := hv 'q' _ (by decide)
    simp [altList, reMatches, litS, seqList, hch, hhow, hqty]
  have hm5 : reMatch pat5 (String.mk (d :: rest)).data = none := by
    apply reMatch_eq_none
    apply patAltStrsFail
    intro u hu
    fin_cases hu
    · exact hv 'l' _ (by decide)
    · exact hv 's' _ (by decide)
    · exact hv 'g' _ (by decide)
  simp only [tryStructuredParse, hm1, hm2, hm3, hm4, hm5]

theorem parse_of_none (L : List Char)
    (hhead : ∀ c, L.head? = some c → isSpaceChar c = false)
    (hlast : ∀ c, L.getLast? = some c → isSpaceChar c = false)
    (hne : L ≠ [])
    (hlow : ∀ c ∈ L, c.toLower = c)
    (hs : tryStructuredParse ⟨L⟩ = none) (hf : flexibleParse ⟨L⟩ = none) :
    parse ⟨L⟩ = none := by
  have hstrip : pyStripS ⟨L⟩ = ⟨L⟩ := by
    simp only [pyStripS, show (String.mk L).data = L from rfl,
      pyStripL_eq_self L hhead hlast]
  have hnes : (⟨L⟩ : String) ≠ "" := by
    intro hc
    apply hne
    have : (String.mk L).data = ("" : String).data := by rw [hc]
    simpa using this
  have hlowS : toLowerS ⟨L⟩ = ⟨L⟩ := toLowerS_eq_self L hlow
  simp only [parse, hstrip, if_neg hnes, hlowS, hs, hf]

/-- Tier 2 on "<digits> <item> add": the action index (2) and quantity
index (0) leave no tokens after max(2+1, 0+1), so the item is empty and
the flexible parse returns none. -/
theorem flexible_digit_first_none (qs item : List Char) (hq : GoodDigits qs)
    (hine : item ≠ []) (hialpha : ∀ c ∈ item, isLowerAlpha c = true)
    (hact : ∀ p ∈ actionMap, p.1 ≠ String.mk item) :
    flexibleParse ⟨qs ++ ' ' :: (item ++ ' ' :: ['a', 'd', 'd'])⟩ = none := by
  have hqnws : ∀ c ∈ qs, isSpaceChar c = false := fun c hc =>
    isDigitCh_not_space (hq.2 c hc)
  have hinws : ∀ c ∈ item, isSpaceChar c = false := fun c hc =>
    isLowerAlpha_not_space (hialpha c hc)
  have hsplit : pySplitL (qs ++ ' ' :: (item ++ ' ' :: ['a', 'd', 'd']))
      = [qs, item, ['a', 'd', 'd']] := by
    rw [pySplitL_word_cons qs _ hq.1 hqnws,
        pySplitL_word_cons item _ hine hinws,
        pySplitL_single ['a', 'd', 'd'] (by decide) (by decide)]
  have hwords : pySplitS ⟨qs ++ ' ' :: (item ++ ' ' :: ['a', 'd', 'd'])⟩
      = [String.mk qs, String.mk item, String.mk ['a', 'd', 'd']] := by
    simp only [pySplitS, show (String.mk (qs ++ ' ' :: (item ++ ' ' :: ['a', 'd', 'd']))).data
      = qs ++ ' ' :: (item ++ ' ' :: ['a', 'd', 'd']) from rfl, hsplit]
    rfl
  have h2 : actionMap.find? (fun p => p.1 = String.mk item) = none :=
    List.find?_eq_none.2 (fun p hp => by simpa using hact p hp)
  have hfa : findActionIdx [String.mk qs, String.mk item, String.mk ['a', 'd', 'd']] 0
      = some ("add", 2) := by
    simp only [findActionIdx, digits_not_action qs hq, h2]
    rfl
  have hfd : findDigitIdx [String.mk qs, String.mk item, String.mk ['a', 'd', 'd']] 0
      = some (natOfDigits qs, 0) := by
    simp only [findDigitIdx, pyIsDigit_mk qs hq, if_true]
  simp only [flexibleParse, hwords, hfa, hfd]
  rfl

/-- The quantity-first surface order never parses at all. -/
theorem parse_digit_first_none (qs item : List Char) (hq : GoodDigits qs)
    (hine : item ≠ []) (hialpha : ∀ c ∈ item, isLowerAlpha c = true)
    (hact : ∀ p ∈ actionMap, p.1 ≠ String.mk item) :
    parse ⟨qs ++ ' ' :: (item ++ ' ' :: ['a', 'd', 'd'])⟩ = none := by
  obtain ⟨d, qs', rfl⟩ : ∃ d qs', qs = d :: qs' := by
    cases qs with
    | nil => exact absurd rfl hq.1
    | cons d qs' => exact ⟨d, qs', rfl⟩
  have hL : (d :: qs') ++ ' ' :: (item ++ ' ' :: ['a', 'd', 'd'])
      = ((d :: qs') ++ ' ' :: (item ++ [' '])) ++ ['a', 'd', 'd'] := by
    simp
  apply parse_of_none
  · intro c hc
    simp only [List.cons_append, List.head?_cons, Option.some.injEq] at hc
    subst hc
    exact isDigitCh_not_space (hq.2 d (by simp))
  · rw [hL]
    exact last_in_suffix _ ['a', 'd', 'd'] (by decide) (by decide)
  · simp
  · intro c hc
    simp only [List.mem_append, List.mem_cons] at hc
    rcases hc with hc | rfl | hc
    · exact toLower_of_digit (hq.2 c (List.mem_cons.2 hc))
    · decide
    · rcases hc with hc | rfl | rfl | rfl | rfl | hc
      · exact toLower_of_alpha (hialpha c hc)
      · decide
      · decide
      · decide
      · decide
      · cases hc
  · exact structured_digit_first_none d (qs' ++ ' ' :: (item ++ ' ' :: ['a', 'd', 'd']))
      (hq.2 d (by simp))
  · exact flexible_digit_first_none (d :: qs') item hq hine hialpha hact

/-! ### Claim C1 and C5 theorems -/

/-- C1 counterexample: a correctly formed Telugu add-utterance (పెట్టు = put,
బియ్యం = rice) does not parse at all, let alone at confidence 1.0: the
structured patterns and the flexible keyword map are English-only. -/
theorem c1_telugu_counterexample :
    parse "పెట్టు 10 బియ్యం" = none := by decide

/-- C1, corrected to English only: for every well-formed English utterance
of each supported action (add/remove/update/check with a digit quantity
and a clean item word, and the fixed list form), parse returns the
expected action, item and quantity at tier-1 confidence exactly 1.0. -/
theorem c1_english_tier1 :
    (∀ qs item : List Char, GoodDigits qs → GoodItemWord item addUnits →
      parse ⟨'a' :: 'd' :: 'd' :: ' ' :: (qs ++ ' ' :: item)⟩
        = some ⟨"add", ⟨item⟩, natOfDigits qs, tierOneConfidence,
            ⟨'a' :: 'd' :: 'd' :: ' ' :: (qs ++ ' ' :: item)⟩⟩) ∧
    (∀ qs item : List Char, GoodDigits qs → GoodItemWord item removeUnits →
      parse ⟨'r' :: 'e' :: 'm' :: 'o' :: 'v' :: 'e' :: ' ' :: (qs ++ ' ' :: item)⟩
        = some ⟨"remove", ⟨item⟩, natOfDigits qs, tierOneConfidence,
            ⟨'r' :: 'e' :: 'm' :: 'o' :: 'v' :: 'e' :: ' ' :: (qs ++ ' ' :: item)⟩⟩) ∧
    (∀ qs item : List Char, GoodDigits qs → GoodItemWord item [] →
      parse ⟨'u' :: 'p' :: 'd' :: 'a' :: 't' :: 'e' :: ' ' ::
          (item ++ ' ' :: 't' :: 'o' :: ' ' :: qs)⟩
        = some ⟨"update", ⟨item⟩, natOfDigits qs, tierOneConfidence,
            ⟨'u' :: 'p' :: 'd' :: 'a' :: 't' :: 'e' :: ' ' ::
              (item ++ ' ' :: 't' :: 'o' :: ' ' :: qs)⟩⟩) ∧
    (∀ item : List Char, GoodItemWord item [] →
      parse ⟨'c' :: 'h' :: 'e' :: 'c' :: 'k' :: ' ' :: item⟩
        = some ⟨"check", ⟨item⟩, 0, tierOneConfidence,
            ⟨'c' :: 'h' :: 'e' :: 'c' :: 'k' :: ' ' :: item⟩⟩) ∧
    parse "list all" = some ⟨"list", "all", 0, tierOneConfidence, "list all"⟩ :=
  ⟨parse_add_mk, parse_remove_mk, parse_update_mk, parse_check_mk, by decide⟩

theorem c1_english_tier1_w :
    parse "add 10 rice" = some ⟨"add", "rice", 10, tierOneConfidence, "add 10 rice"⟩ ∧
    parse "remove 3 rice" = some ⟨"remove", "rice", 3, tierOneConfidence, "remove 3 rice"⟩ ∧
    parse "update rice to 7" = some ⟨"update", "rice", 7, tierOneConfidence, "update rice to 7"⟩ ∧
    parse "check rice" = some ⟨"check", "rice", 0, tierOneConfidence, "check rice"⟩ :=
  ⟨c1_english_tier1.1 ['1', '0'] "rice".data (by decide) (by decide),
   c1_english_tier1.2.1 ['3'] "rice".data (by decide) (by decide),
   c1_english_tier1.2.2.1 ['7'] "rice".data (by decide) (by decide),
   c1_english_tier1.2.2.2.1 "rice".data (by decide)⟩

/-- C5 counterexample: the action-first order parses at tier 1 but the
quantity-first order of the same utterance does not parse at all. -/
theorem c5_order_counterexample :
    parse "add 10 rice" = some ⟨"add", "rice", 10, tierOneConfidence, "add 10 rice"⟩ ∧
    parse "10 rice add" = none := by
  constructor <;> decide

/-- C5, corrected: tier-1 structured parsing recognizes only the
action-first order. With or without a unit word, the action-first add
utterance yields the same action, item and quantity at confidence 1.0,
while the quantity-first order fails both tiers and parses to none. -/
theorem c5_action_first_order :
    (∀ qs item : List Char, GoodDigits qs → GoodItemWord item addUnits →
      parse ⟨'a' :: 'd' :: 'd' :: ' ' :: (qs ++ ' ' :: item)⟩
        = some ⟨"add", ⟨item⟩, natOfDigits qs, tierOneConfidence,
            ⟨'a' :: 'd' :: 'd' :: ' ' :: (qs ++ ' ' :: item)⟩⟩) ∧
    (∀ qs item : List Char, GoodDigits qs → GoodItemWord item addUnits →
      parse ⟨'a' :: 'd' :: 'd' :: ' ' ::
          (qs ++ ' ' :: 'b' :: 'a' :: 'g' :: 's' :: ' ' :: 'o' :: 'f' :: ' ' :: item)⟩
        = some ⟨"add", ⟨item⟩, natOfDigits qs, tierOneConfidence,
            ⟨'a' :: 'd' :: 'd' :: ' ' ::
              (qs ++ ' ' :: 'b' :: 'a' :: 'g' :: 's' :: ' ' :: 'o' :: 'f' :: ' ' :: item)⟩⟩) ∧
    (∀ qs item : List Char, GoodDigits qs → item ≠ [] →
      (∀ c ∈ item, isLowerAlpha c = true) →
      (∀ p ∈ actionMap, p.1 ≠ String.mk item) →
      parse ⟨qs ++ ' ' :: (item ++ ' ' :: ['a', 'd', 'd'])⟩ = none) :=
  ⟨parse_add_mk, parse_add_units_mk, parse_digit_first_none⟩

theorem c5_action_first_order_w :
    parse "add 2 rice" = some ⟨"add", "rice", 2, tierOneConfidence, "add 2 rice"⟩ ∧
    parse "add 2 bags of rice" = some ⟨"add", "rice", 2, tierOneConfidence, "add 2 bags of rice"⟩ ∧
    parse "2 rice add" = none :=
  ⟨c5_action_first_order.1 ['2'] "rice".data (by decide) (by decide),
   c5_action_first_order.2.1 ['2'] "rice".data (by decide) (by decide),
   c5_action_first_order.2.2 ['2'] "rice".data (by decide) (by decide) (by decide) (by decide)⟩
